import Mathlib

/-!
# Bit-sliced tower-field multiplication kernels

A shallow embedding of `crates/core/src/bitsliced_mul/bs.c` and
`crates/field/src/bitsliced_mul/bs.c` (build configuration of `bs.h`:
`WORD_SIZE 64`, `UNROLL_TRANSPOSE` defined), followed by theorems about it.

Conventions of the embedding:
* a `word_t` (`uint64_t`) is a `Nat` below `2 ^ 64`, a `uint8_t` a `Nat` below `256`;
  arithmetic that can wrap in C carries an explicit `%`;
* a buffer (`word_t *`, `uint8_t *`, a table) is a `List Nat`; a read is `List.getD _ _ 0`
  and a store is `List.set`; theorems state the buffer sizes under which the C accesses
  are in range;
* a C `for` loop is `forLoop`.
-/

namespace Bs

/-! ## Configuration (`bs.h`) -/

/-- Macro `#define BLOCK_SIZE 128`. -/
abbrev BLOCK_SIZE : Nat := 128

/-- Macro `#define WORD_SIZE 64`. -/
abbrev WORD_SIZE : Nat := 64

/-- Macro `#define WORDS_PER_BLOCK (BLOCK_SIZE / WORD_SIZE)`. -/
abbrev WORDS_PER_BLOCK : Nat := BLOCK_SIZE / WORD_SIZE

/-- Macro `#define ONE 1ULL`. -/
abbrev ONE : Nat := 1

/-- Macro `#define MUL_SHIFT 6`. -/
abbrev MUL_SHIFT : Nat := 6

/-- Number of values of a `word_t` (`uint64_t`); index arithmetic on `word_t` wraps at it. -/
abbrev WORD_MOD : Nat := 2 ^ 64

/-! ## Control flow and memory primitives -/

/-- The C loop `for (i = 0; i < n; i++) st = body i st`, iterations in increasing order. -/
def forLoop {σ : Type} : Nat → (Nat → σ → σ) → σ → σ
  | 0, _, st => st
  | n + 1, body, st => body n (forLoop n body st)

/-- The effect of `memmove(dst, src, n * sizeof(word_t))` on the buffer `dst`. -/
def memmove (dst src : List Nat) (n : Nat) : List Nat :=
  src.take n ++ dst.drop n

/-- The statement `transpose[idx] |= (w & (ONE << j)) ? bitpos : 0;`. -/
def or_bit (transpose : List Nat) (idx w j bitpos : Nat) : List Nat :=
  transpose.set idx (transpose.getD idx 0 ||| (if w &&& (ONE <<< j) ≠ 0 then bitpos else 0))

/-! ## Bit transpose (`bs.c`, identical in both crates) -/

/-- The `#else` (unrolled, `WORD_SIZE > 32`) body of the `i` loop of `bs_transpose_dst`,
one line per source line. -/
def bs_transpose_dst_unrolled (transpose : List Nat) (offset w bitpos : Nat) : List Nat :=
  let transpose := or_bit transpose (offset + 0) w 0 bitpos
  let transpose := or_bit transpose (offset + 1) w 1 bitpos
  let transpose := or_bit transpose (offset + 2) w 2 bitpos
  let transpose := or_bit transpose (offset + 3) w 3 bitpos
  let transpose := or_bit transpose (offset + 4) w 4 bitpos
  let transpose := or_bit transpose (offset + 5) w 5 bitpos
  let transpose := or_bit transpose (offset + 6) w 6 bitpos
  let transpose := or_bit transpose (offset + 7) w 7 bitpos
  let transpose := or_bit transpose (offset + 8) w 8 bitpos
  let transpose := or_bit transpose (offset + 9) w 9 bitpos
  let transpose := or_bit transpose (offset + 10) w 10 bitpos
  let transpose := or_bit transpose (offset + 11) w 11 bitpos
  let transpose := or_bit transpose (offset + 12) w 12 bitpos
  let transpose := or_bit transpose (offset + 13) w 13 bitpos
  let transpose := or_bit transpose (offset + 14) w 14 bitpos
  let transpose := or_bit transpose (offset + 15) w 15 bitpos
  let transpose := or_bit transpose (offset + 16) w 16 bitpos
  let transpose := or_bit transpose (offset + 17) w 17 bitpos
  let transpose := or_bit transpose (offset + 18) w 18 bitpos
  let transpose := or_bit transpose (offset + 19) w 19 bitpos
  let transpose := or_bit transpose (offset + 20) w 20 bitpos
  let transpose := or_bit transpose (offset + 21) w 21 bitpos
  let transpose := or_bit transpose (offset + 22) w 22 bitpos
  let transpose := or_bit transpose (offset + 23) w 23 bitpos
  let transpose := or_bit transpose (offset + 24) w 24 bitpos
  let transpose := or_bit transpose (offset + 25) w 25 bitpos
  let transpose := or_bit transpose (offset + 26) w 26 bitpos
  let transpose := or_bit transpose (offset + 27) w 27 bitpos
  let transpose := or_bit transpose (offset + 28) w 28 bitpos
  let transpose := or_bit transpose (offset + 29) w 29 bitpos
  let transpose := or_bit transpose (offset + 30) w 30 bitpos
  let transpose := or_bit transpose (offset + 31) w 31 bitpos
  let transpose := or_bit transpose (offset + 32) w 32 bitpos
  let transpose := or_bit transpose (offset + 33) w 33 bitpos
  let transpose := or_bit transpose (offset + 34) w 34 bitpos
  let transpose := or_bit transpose (offset + 35) w 35 bitpos
  let transpose := or_bit transpose (offset + 36) w 36 bitpos
  let transpose := or_bit transpose (offset + 37) w 37 bitpos
  let transpose := or_bit transpose (offset + 38) w 38 bitpos
  let transpose := or_bit transpose (offset + 39) w 39 bitpos
  let transpose := or_bit transpose (offset + 40) w 40 bitpos
  let transpose := or_bit transpose (offset + 41) w 41 bitpos
  let transpose := or_bit transpose (offset + 42) w 42 bitpos
  let transpose := or_bit transpose (offset + 43) w 43 bitpos
  let transpose := or_bit transpose (offset + 44) w 44 bitpos
  let transpose := or_bit transpose (offset + 45) w 45 bitpos
  let transpose := or_bit transpose (offset + 46) w 46 bitpos
  let transpose := or_bit transpose (offset + 47) w 47 bitpos
  let transpose := or_bit transpose (offset + 48) w 48 bitpos
  let transpose := or_bit transpose (offset + 49) w 49 bitpos
  let transpose := or_bit transpose (offset + 50) w 50 bitpos
  let transpose := or_bit transpose (offset + 51) w 51 bitpos
  let transpose := or_bit transpose (offset + 52) w 52 bitpos
  let transpose := or_bit transpose (offset + 53) w 53 bitpos
  let transpose := or_bit transpose (offset + 54) w 54 bitpos
  let transpose := or_bit transpose (offset + 55) w 55 bitpos
  let transpose := or_bit transpose (offset + 56) w 56 bitpos
  let transpose := or_bit transpose (offset + 57) w 57 bitpos
  let transpose := or_bit transpose (offset + 58) w 58 bitpos
  let transpose := or_bit transpose (offset + 59) w 59 bitpos
  let transpose := or_bit transpose (offset + 60) w 60 bitpos
  let transpose := or_bit transpose (offset + 61) w 61 bitpos
  let transpose := or_bit transpose (offset + 62) w 62 bitpos
  let transpose := or_bit transpose (offset + 63) w 63 bitpos
  transpose

/-- Function `bs_transpose_dst(transpose, blocks, width_to_adjacent_block)`: the resulting
contents of `transpose`. The index `k * WORDS_PER_BLOCK * width_to_adjacent_block + i` is
computed in `word_t`. -/
def bs_transpose_dst (transpose blocks : List Nat) (width_to_adjacent_block : Nat) : List Nat :=
  forLoop WORD_SIZE (fun k transpose =>
    let bitpos := ONE <<< k
    forLoop WORDS_PER_BLOCK (fun i transpose =>
      let w := blocks.getD ((k * WORDS_PER_BLOCK * width_to_adjacent_block + i) % WORD_MOD) 0
      let offset := i <<< MUL_SHIFT
      bs_transpose_dst_unrolled transpose offset w bitpos) transpose) transpose

/-- Function `bs_transpose(blocks, width_to_adjacent_block)`: the resulting contents of
`blocks`. -/
def bs_transpose (blocks : List Nat) (width_to_adjacent_block : Nat) : List Nat :=
  let transpose := List.replicate BLOCK_SIZE 0
  let transpose := bs_transpose_dst transpose blocks width_to_adjacent_block
  memmove blocks transpose BLOCK_SIZE

/-- The `#else` (unrolled, `WORD_SIZE > 32`) body of the `k` loop of `bs_transpose_rev`,
one line per source line. The stride does not occur in it. -/
def bs_transpose_rev_unrolled (transpose : List Nat) (offset w bitpos : Nat) : List Nat :=
  let transpose := or_bit transpose (0 * WORDS_PER_BLOCK + offset) w 0 bitpos
  let transpose := or_bit transpose (1 * WORDS_PER_BLOCK + offset) w 1 bitpos
  let transpose := or_bit transpose (2 * WORDS_PER_BLOCK + offset) w 2 bitpos
  let transpose := or_bit transpose (3 * WORDS_PER_BLOCK + offset) w 3 bitpos
  let transpose := or_bit transpose (4 * WORDS_PER_BLOCK + offset) w 4 bitpos
  let transpose := or_bit transpose (5 * WORDS_PER_BLOCK + offset) w 5 bitpos
  let transpose := or_bit transpose (6 * WORDS_PER_BLOCK + offset) w 6 bitpos
  let transpose := or_bit transpose (7 * WORDS_PER_BLOCK + offset) w 7 bitpos
  let transpose := or_bit transpose (8 * WORDS_PER_BLOCK + offset) w 8 bitpos
  let transpose := or_bit transpose (9 * WORDS_PER_BLOCK + offset) w 9 bitpos
  let transpose := or_bit transpose (10 * WORDS_PER_BLOCK + offset) w 10 bitpos
  let transpose := or_bit transpose (11 * WORDS_PER_BLOCK + offset) w 11 bitpos
  let transpose := or_bit transpose (12 * WORDS_PER_BLOCK + offset) w 12 bitpos
  let transpose := or_bit transpose (13 * WORDS_PER_BLOCK + offset) w 13 bitpos
  let transpose := or_bit transpose (14 * WORDS_PER_BLOCK + offset) w 14 bitpos
  let transpose := or_bit transpose (15 * WORDS_PER_BLOCK + offset) w 15 bitpos
  let transpose := or_bit transpose (16 * WORDS_PER_BLOCK + offset) w 16 bitpos
  let transpose := or_bit transpose (17 * WORDS_PER_BLOCK + offset) w 17 bitpos
  let transpose := or_bit transpose (18 * WORDS_PER_BLOCK + offset) w 18 bitpos
  let transpose := or_bit transpose (19 * WORDS_PER_BLOCK + offset) w 19 bitpos
  let transpose := or_bit transpose (20 * WORDS_PER_BLOCK + offset) w 20 bitpos
  let transpose := or_bit transpose (21 * WORDS_PER_BLOCK + offset) w 21 bitpos
  let transpose := or_bit transpose (22 * WORDS_PER_BLOCK + offset) w 22 bitpos
  let transpose := or_bit transpose (23 * WORDS_PER_BLOCK + offset) w 23 bitpos
  let transpose := or_bit transpose (24 * WORDS_PER_BLOCK + offset) w 24 bitpos
  let transpose := or_bit transpose (25 * WORDS_PER_BLOCK + offset) w 25 bitpos
  let transpose := or_bit transpose (26 * WORDS_PER_BLOCK + offset) w 26 bitpos
  let transpose := or_bit transpose (27 * WORDS_PER_BLOCK + offset) w 27 bitpos
  let transpose := or_bit transpose (28 * WORDS_PER_BLOCK + offset) w 28 bitpos
  let transpose := or_bit transpose (29 * WORDS_PER_BLOCK + offset) w 29 bitpos
  let transpose := or_bit transpose (30 * WORDS_PER_BLOCK + offset) w 30 bitpos
  let transpose := or_bit transpose (31 * WORDS_PER_BLOCK + offset) w 31 bitpos
  let transpose := or_bit transpose (32 * WORDS_PER_BLOCK + offset) w 32 bitpos
  let transpose := or_bit transpose (33 * WORDS_PER_BLOCK + offset) w 33 bitpos
  let transpose := or_bit transpose (34 * WORDS_PER_BLOCK + offset) w 34 bitpos
  let transpose := or_bit transpose (35 * WORDS_PER_BLOCK + offset) w 35 bitpos
  let transpose := or_bit transpose (36 * WORDS_PER_BLOCK + offset) w 36 bitpos
  let transpose := or_bit transpose (37 * WORDS_PER_BLOCK + offset) w 37 bitpos
  let transpose := or_bit transpose (38 * WORDS_PER_BLOCK + offset) w 38 bitpos
  let transpose := or_bit transpose (39 * WORDS_PER_BLOCK + offset) w 39 bitpos
  let transpose := or_bit transpose (40 * WORDS_PER_BLOCK + offset) w 40 bitpos
  let transpose := or_bit transpose (41 * WORDS_PER_BLOCK + offset) w 41 bitpos
  let transpose := or_bit transpose (42 * WORDS_PER_BLOCK + offset) w 42 bitpos
  let transpose := or_bit transpose (43 * WORDS_PER_BLOCK + offset) w 43 bitpos
  let transpose := or_bit transpose (44 * WORDS_PER_BLOCK + offset) w 44 bitpos
  let transpose := or_bit transpose (45 * WORDS_PER_BLOCK + offset) w 45 bitpos
  let transpose := or_bit transpose (46 * WORDS_PER_BLOCK + offset) w 46 bitpos
  let transpose := or_bit transpose (47 * WORDS_PER_BLOCK + offset) w 47 bitpos
  let transpose := or_bit transpose (48 * WORDS_PER_BLOCK + offset) w 48 bitpos
  let transpose := or_bit transpose (49 * WORDS_PER_BLOCK + offset) w 49 bitpos
  let transpose := or_bit transpose (50 * WORDS_PER_BLOCK + offset) w 50 bitpos
  let transpose := or_bit transpose (51 * WORDS_PER_BLOCK + offset) w 51 bitpos
  let transpose := or_bit transpose (52 * WORDS_PER_BLOCK + offset) w 52 bitpos
  let transpose := or_bit transpose (53 * WORDS_PER_BLOCK + offset) w 53 bitpos
  let transpose := or_bit transpose (54 * WORDS_PER_BLOCK + offset) w 54 bitpos
  let transpose := or_bit transpose (55 * WORDS_PER_BLOCK + offset) w 55 bitpos
  let transpose := or_bit transpose (56 * WORDS_PER_BLOCK + offset) w 56 bitpos
  let transpose := or_bit transpose (57 * WORDS_PER_BLOCK + offset) w 57 bitpos
  let transpose := or_bit transpose (58 * WORDS_PER_BLOCK + offset) w 58 bitpos
  let transpose := or_bit transpose (59 * WORDS_PER_BLOCK + offset) w 59 bitpos
  let transpose := or_bit transpose (60 * WORDS_PER_BLOCK + offset) w 60 bitpos
  let transpose := or_bit transpose (61 * WORDS_PER_BLOCK + offset) w 61 bitpos
  let transpose := or_bit transpose (62 * WORDS_PER_BLOCK + offset) w 62 bitpos
  let transpose := or_bit transpose (63 * WORDS_PER_BLOCK + offset) w 63 bitpos
  transpose

/-- The scratch block `transpose` of `bs_transpose_rev` after its `k` loop, before the
final `memmove`. -/
def bs_transpose_rev_scratch (blocks : List Nat) : List Nat :=
  forLoop BLOCK_SIZE (fun k transpose =>
    let w := blocks.getD k 0
    let bitpos := ONE <<< (k % WORD_SIZE)
    let offset := k / WORD_SIZE
    bs_transpose_rev_unrolled transpose offset w bitpos) (List.replicate BLOCK_SIZE 0)

set_option linter.unusedVariables false in
/-- Function `bs_transpose_rev(blocks, width_to_adjacent_block)` as built
(`UNROLL_TRANSPOSE` defined): the resulting contents of `blocks`. -/
def bs_transpose_rev (blocks : List Nat) (width_to_adjacent_block : Nat) : List Nat :=
  memmove blocks (bs_transpose_rev_scratch blocks) BLOCK_SIZE

/-! ## GF(2^8) table arithmetic (`crates/field/src/bitsliced_mul/bs.c`) -/

/-- Table `const uint8_t BINARY_TOWER_8B_MUL_ALPHA_MAP[256]`. -/
def BINARY_TOWER_8B_MUL_ALPHA_MAP : List Nat :=
  [0x00, 0x10, 0x20, 0x30, 0x40, 0x50, 0x60, 0x70, 0x80, 0x90, 0xa0, 0xb0, 0xc0, 0xd0, 0xe0, 0xf0,
   0x41, 0x51, 0x61, 0x71, 0x01, 0x11, 0x21, 0x31, 0xc1, 0xd1, 0xe1, 0xf1, 0x81, 0x91, 0xa1, 0xb1,
   0x82, 0x92, 0xa2, 0xb2, 0xc2, 0xd2, 0xe2, 0xf2, 0x02, 0x12, 0x22, 0x32, 0x42, 0x52, 0x62, 0x72,
   0xc3, 0xd3, 0xe3, 0xf3, 0x83, 0x93, 0xa3, 0xb3, 0x43, 0x53, 0x63, 0x73, 0x03, 0x13, 0x23, 0x33,
   0x94, 0x84, 0xb4, 0xa4, 0xd4, 0xc4, 0xf4, 0xe4, 0x14, 0x04, 0x34, 0x24, 0x54, 0x44, 0x74, 0x64,
   0xd5, 0xc5, 0xf5, 0xe5, 0x95, 0x85, 0xb5, 0xa5, 0x55, 0x45, 0x75, 0x65, 0x15, 0x05, 0x35, 0x25,
   0x16, 0x06, 0x36, 0x26, 0x56, 0x46, 0x76, 0x66, 0x96, 0x86, 0xb6, 0xa6, 0xd6, 0xc6, 0xf6, 0xe6,
   0x57, 0x47, 0x77, 0x67, 0x17, 0x07, 0x37, 0x27, 0xd7, 0xc7, 0xf7, 0xe7, 0x97, 0x87, 0xb7, 0xa7,
   0xe8, 0xf8, 0xc8, 0xd8, 0xa8, 0xb8, 0x88, 0x98, 0x68, 0x78, 0x48, 0x58, 0x28, 0x38, 0x08, 0x18,
   0xa9, 0xb9, 0x89, 0x99, 0xe9, 0xf9, 0xc9, 0xd9, 0x29, 0x39, 0x09, 0x19, 0x69, 0x79, 0x49, 0x59,
   0x6a, 0x7a, 0x4a, 0x5a, 0x2a, 0x3a, 0x0a, 0x1a, 0xea, 0xfa, 0xca, 0xda, 0xaa, 0xba, 0x8a, 0x9a,
   0x2b, 0x3b, 0x0b, 0x1b, 0x6b, 0x7b, 0x4b, 0x5b, 0xab, 0xbb, 0x8b, 0x9b, 0xeb, 0xfb, 0xcb, 0xdb,
   0x7c, 0x6c, 0x5c, 0x4c, 0x3c, 0x2c, 0x1c, 0x0c, 0xfc, 0xec, 0xdc, 0xcc, 0xbc, 0xac, 0x9c, 0x8c,
   0x3d, 0x2d, 0x1d, 0x0d, 0x7d, 0x6d, 0x5d, 0x4d, 0xbd, 0xad, 0x9d, 0x8d, 0xfd, 0xed, 0xdd, 0xcd,
   0xfe, 0xee, 0xde, 0xce, 0xbe, 0xae, 0x9e, 0x8e, 0x7e, 0x6e, 0x5e, 0x4e, 0x3e, 0x2e, 0x1e, 0x0e,
   0xbf, 0xaf, 0x9f, 0x8f, 0xff, 0xef, 0xdf, 0xcf, 0x3f, 0x2f, 0x1f, 0x0f, 0x7f, 0x6f, 0x5f, 0x4f]

/-- Table `const uint8_t EXP_TABLE[256]`. -/
def EXP_TABLE : List Nat :=
  [0x01, 0x13, 0x43, 0x66, 0xAB, 0x8C, 0x60, 0xC6, 0x91, 0xCA, 0x59, 0xB2, 0x6A, 0x63, 0xF4, 0x53,
   0x17, 0x0F, 0xFA, 0xBA, 0xEE, 0x87, 0xD6, 0xE0, 0x6E, 0x2F, 0x68, 0x42, 0x75, 0xE8, 0xEA, 0xCB,
   0x4A, 0xF1, 0x0C, 0xC8, 0x78, 0x33, 0xD1, 0x9E, 0x30, 0xE3, 0x5C, 0xED, 0xB5, 0x14, 0x3D, 0x38,
   0x67, 0xB8, 0xCF, 0x06, 0x6D, 0x1D, 0xAA, 0x9F, 0x23, 0xA0, 0x3A, 0x46, 0x39, 0x74, 0xFB, 0xA9,
   0xAD, 0xE1, 0x7D, 0x6C, 0x0E, 0xE9, 0xF9, 0x88, 0x2C, 0x5A, 0x80, 0xA8, 0xBE, 0xA2, 0x1B, 0xC7,
   0x82, 0x89, 0x3F, 0x19, 0xE6, 0x03, 0x32, 0xC2, 0xDD, 0x56, 0x48, 0xD0, 0x8D, 0x73, 0x85, 0xF7,
   0x61, 0xD5, 0xD2, 0xAC, 0xF2, 0x3E, 0x0A, 0xA5, 0x65, 0x99, 0x4E, 0xBD, 0x90, 0xD9, 0x1A, 0xD4,
   0xC1, 0xEF, 0x94, 0x95, 0x86, 0xC5, 0xA3, 0x08, 0x84, 0xE4, 0x22, 0xB3, 0x79, 0x20, 0x92, 0xF8,
   0x9B, 0x6F, 0x3C, 0x2B, 0x24, 0xDE, 0x64, 0x8A, 0x0D, 0xDB, 0x3B, 0x55, 0x7A, 0x12, 0x50, 0x25,
   0xCD, 0x27, 0xEC, 0xA6, 0x57, 0x5B, 0x93, 0xEB, 0xD8, 0x09, 0x97, 0xA7, 0x44, 0x18, 0xF5, 0x40,
   0x54, 0x69, 0x51, 0x36, 0x8E, 0x41, 0x47, 0x2A, 0x37, 0x9D, 0x02, 0x21, 0x81, 0xBB, 0xFD, 0xC4,
   0xB0, 0x4B, 0xE2, 0x4F, 0xAE, 0xD3, 0xBF, 0xB1, 0x58, 0xA1, 0x29, 0x05, 0x5F, 0xDF, 0x77, 0xC9,
   0x6B, 0x70, 0xB7, 0x35, 0xBC, 0x83, 0x9A, 0x7C, 0x7F, 0x4D, 0x8F, 0x52, 0x04, 0x4C, 0x9C, 0x11,
   0x62, 0xE7, 0x10, 0x71, 0xA4, 0x76, 0xDA, 0x28, 0x16, 0x1C, 0xB9, 0xDC, 0x45, 0x0B, 0xB6, 0x26,
   0xFF, 0xE5, 0x31, 0xF0, 0x1F, 0x8B, 0x1E, 0x98, 0x5D, 0xFE, 0xF6, 0x72, 0x96, 0xB4, 0x07, 0x7E,
   0x5E, 0xCC, 0x34, 0xAF, 0xC0, 0xFC, 0xD7, 0xF3, 0x2D, 0x49, 0xC3, 0xCE, 0x15, 0x2E, 0x7B, 0x01]

/-- Table `const uint8_t LOG_TABLE[256]`. -/
def LOG_TABLE : List Nat :=
  [0x00, 0x00, 0xAA, 0x55, 0xCC, 0xBB, 0x33, 0xEE, 0x77, 0x99, 0x66, 0xDD, 0x22, 0x88, 0x44, 0x11,
   0xD2, 0xCF, 0x8D, 0x01, 0x2D, 0xFC, 0xD8, 0x10, 0x9D, 0x53, 0x6E, 0x4E, 0xD9, 0x35, 0xE6, 0xE4,
   0x7D, 0xAB, 0x7A, 0x38, 0x84, 0x8F, 0xDF, 0x91, 0xD7, 0xBA, 0xA7, 0x83, 0x48, 0xF8, 0xFD, 0x19,
   0x28, 0xE2, 0x56, 0x25, 0xF2, 0xC3, 0xA3, 0xA8, 0x2F, 0x3C, 0x3A, 0x8A, 0x82, 0x2E, 0x65, 0x52,
   0x9F, 0xA5, 0x1B, 0x02, 0x9C, 0xDC, 0x3B, 0xA6, 0x5A, 0xF9, 0x20, 0xB1, 0xCD, 0xC9, 0x6A, 0xB3,
   0x8E, 0xA2, 0xCB, 0x0F, 0xA0, 0x8B, 0x59, 0x94, 0xB8, 0x0A, 0x49, 0x95, 0x2A, 0xE8, 0xF0, 0xBC,
   0x06, 0x60, 0xD0, 0x0D, 0x86, 0x68, 0x03, 0x30, 0x1A, 0xA1, 0x0C, 0xC0, 0x43, 0x34, 0x18, 0x81,
   0xC1, 0xD3, 0xEB, 0x5D, 0x3D, 0x1C, 0xD5, 0xBE, 0x24, 0x7C, 0x8C, 0xFE, 0xC7, 0x42, 0xEF, 0xC8,
   0x4A, 0xAC, 0x50, 0xC5, 0x78, 0x5E, 0x74, 0x15, 0x47, 0x51, 0x87, 0xE5, 0x05, 0x5C, 0xA4, 0xCA,
   0x6C, 0x08, 0x7E, 0x96, 0x72, 0x73, 0xEC, 0x9A, 0xE7, 0x69, 0xC6, 0x80, 0xCE, 0xA9, 0x27, 0x37,
   0x39, 0xB9, 0x4D, 0x76, 0xD4, 0x67, 0x93, 0x9B, 0x4B, 0x3F, 0x36, 0x04, 0x63, 0x40, 0xB4, 0xF3,
   0xB0, 0xB7, 0x0B, 0x7B, 0xED, 0x2C, 0xDE, 0xC2, 0x31, 0xDA, 0x13, 0xAD, 0xC4, 0x6B, 0x4C, 0xB6,
   0xF4, 0x70, 0x57, 0xFA, 0xAF, 0x75, 0x07, 0x4F, 0x23, 0xBF, 0x09, 0x1F, 0xF1, 0x90, 0xFB, 0x32,
   0x5B, 0x26, 0x62, 0xB5, 0x6F, 0x61, 0x16, 0xF6, 0x98, 0x6D, 0xD6, 0x89, 0xDB, 0x58, 0x85, 0xBD,
   0x17, 0x41, 0xB2, 0x29, 0x79, 0xE1, 0x54, 0xD1, 0x1D, 0x45, 0x1E, 0x97, 0x92, 0x2B, 0x14, 0x71,
   0xE3, 0x21, 0x64, 0xF7, 0x0E, 0x9E, 0xEA, 0x5F, 0x7F, 0x46, 0x12, 0x3E, 0xF5, 0xAE, 0xE9, 0xE0]

/-- Function `multiply_constant_8b_using_table(rhs, alpha_table)`. -/
def multiply_constant_8b_using_table (rhs : Nat) (alpha_table : List Nat) : Nat :=
  let result := alpha_table.getD rhs 0
  result

/-- Function `multiply_8b_using_log_table(lhs, rhs, log_table, exp_table)`. The sum of the
two table bytes is formed in `int` and held in a `size_t`, so it does not wrap. -/
def multiply_8b_using_log_table (lhs rhs : Nat) (log_table exp_table : List Nat) : Nat :=
  if lhs ≠ 0 ∧ rhs ≠ 0 then
    let log_table_index := log_table.getD lhs 0 + log_table.getD rhs 0
    let log_table_index :=
      if log_table_index > 254 then log_table_index - 255 else log_table_index
    exp_table.getD log_table_index 0
  else
    0

/-! ## NEON lane vectors (`arm_neon.h`) and the packed multiplier -/

/-- Type `M128` (`uint8x16_t`): sixteen byte lanes. -/
abbrev M128 : Type := Fin 16 → Nat

/-- The Arm intrinsic `vdupq_n_u8`: the byte `x` in every lane. -/
def vdupq_n_u8 (x : Nat) : M128 := fun _ => x

/-- The Arm intrinsic `veorq_u8`: lane-wise XOR. -/
def veorq_u8 (a b : M128) : M128 := fun l => a l ^^^ b l

/-- The Arm intrinsic `vorrq_u8`: lane-wise OR. -/
def vorrq_u8 (a b : M128) : M128 := fun l => a l ||| b l

/-- The Arm intrinsic `vandq_u8`: lane-wise AND. -/
def vandq_u8 (a b : M128) : M128 := fun l => a l &&& b l

/-- The Arm intrinsic `vaddq_u8`: lane-wise addition of bytes, wrapping at 256. -/
def vaddq_u8 (a b : M128) : M128 := fun l => (a l + b l) % 256

/-- The Arm intrinsic `vsubq_u8`: lane-wise subtraction of bytes, wrapping at 256. -/
def vsubq_u8 (a b : M128) : M128 := fun l => (a l + 256 - b l % 256) % 256

/-- The Arm intrinsic `vcgtq_u8`: lane-wise unsigned `a > b`, all ones (`0xFF`) where it
holds and `0` elsewhere. -/
def vcgtq_u8 (a b : M128) : M128 := fun l => if a l > b l then 0xFF else 0

/-- The Arm intrinsic `vceqzq_u8`: lane-wise `a == 0`, all ones (`0xFF`) where it holds and
`0` elsewhere. -/
def vceqzq_u8 (a : M128) : M128 := fun l => if a l = 0 then 0xFF else 0

/-- The Arm intrinsic `vld1q_u8_x4(&table[offset])`: the 64 consecutive bytes of `table`
from `offset` on (four 16-byte registers). -/
def vld1q_u8_x4 (table : List Nat) (offset : Nat) : List Nat :=
  (table.drop offset).take 64

/-- The Arm intrinsic `vqtbl4q_u8`: per lane, the byte of the 64-byte table at the lane's
index, and `0` for an index outside `0..63`. -/
def vqtbl4q_u8 (tbl : List Nat) (idx : M128) : M128 :=
  fun l => if idx l < 64 then tbl.getD (idx l) 0 else 0

/-- Table `const uint8x16_t all_ffs`. -/
def all_ffs : M128 := fun _ => 0xff

/-- Function `lookup_16x8b(table, x)`. -/
def lookup_16x8b (table : List Nat) (x : M128) : M128 :=
  let tbl0 := vld1q_u8_x4 table 0
  let tbl1 := vld1q_u8_x4 table 64
  let tbl2 := vld1q_u8_x4 table 128
  let tbl3 := vld1q_u8_x4 table 192
  let y0 := vqtbl4q_u8 tbl0 x
  let y1 := vqtbl4q_u8 tbl1 (veorq_u8 x (vdupq_n_u8 0x40))
  let y2 := vqtbl4q_u8 tbl2 (veorq_u8 x (vdupq_n_u8 0x80))
  let y3 := vqtbl4q_u8 tbl3 (veorq_u8 x (vdupq_n_u8 0xC0))
  let result := veorq_u8 (veorq_u8 y0 y1) (veorq_u8 y2 y3)
  result

/-- Function `multiply_constant_128b_using_table(rhs, result)`: the value stored to
`*result`. -/
def multiply_constant_128b_using_table (rhs : M128) : M128 :=
  lookup_16x8b BINARY_TOWER_8B_MUL_ALPHA_MAP rhs

/-- Function `packed_tower_16x8b_multiply(a, b)`. -/
def packed_tower_16x8b_multiply (a b : M128) : M128 :=
  let loga := lookup_16x8b LOG_TABLE a
  let logb := lookup_16x8b LOG_TABLE b
  let sum := vaddq_u8 loga logb
  let overflow := vcgtq_u8 loga sum
  let logc := vsubq_u8 sum overflow
  let c := lookup_16x8b EXP_TABLE logc
  let a_or_b_is_zero := vorrq_u8 (vceqzq_u8 a) (vceqzq_u8 b)
  let final_result := vandq_u8 c (veorq_u8 a_or_b_is_zero all_ffs)
  final_result

/-- Function `multiply_128b_using_log_table(lhs, rhs, result)`: the value stored to
`*result`. -/
def multiply_128b_using_log_table (lhs rhs : M128) : M128 :=
  packed_tower_16x8b_multiply lhs rhs

/-! ## Byte slicing (`crates/field/src/bitsliced_mul/bs.c`) -/

/-- Macro `#define NUM_INPUTS 16`. -/
abbrev NUM_INPUTS : Nat := 16

/-- Macro `#define BYTES_IN_128BIT 16`. -/
abbrev BYTES_IN_128BIT : Nat := 16

/-- Macro `#define SLICED_OUTPUTS 16`. -/
abbrev SLICED_OUTPUTS : Nat := 16

/-- Function `byte_slice(input, output)` on the byte views `input_bytes`, `output_bytes` of
its two arguments: the resulting contents of `output_bytes`. -/
def byte_slice (input_bytes output_bytes : List Nat) : List Nat :=
  forLoop BYTES_IN_128BIT (fun byte_index output_bytes =>
    forLoop NUM_INPUTS (fun i output_bytes =>
      output_bytes.set (byte_index * NUM_INPUTS + i)
        (input_bytes.getD (i * BYTES_IN_128BIT + byte_index) 0)) output_bytes) output_bytes

/-- Function `un_byte_slice(input, output)` on the byte views `input_bytes`, `output_bytes`
of its two arguments: the resulting contents of `output_bytes`. -/
def un_byte_slice (input_bytes output_bytes : List Nat) : List Nat :=
  forLoop BYTES_IN_128BIT (fun byte_index output_bytes =>
    forLoop NUM_INPUTS (fun i output_bytes =>
      output_bytes.set (i * BYTES_IN_128BIT + byte_index)
        (input_bytes.getD (byte_index * NUM_INPUTS + i) 0)) output_bytes) output_bytes

/-! ## Auxiliary definitions used by the proofs -/

/-- The buffer `t'` is `t` with bits ORed in: the length is kept, and bit `m` of word `n`
is set in `t'` iff it is set in `t` or `S n m` holds. -/
def OrAcc (t t' : List Nat) (S : Nat → Nat → Prop) : Prop :=
  t'.length = t.length ∧
    ∀ n m, n < t.length →
      ((t'.getD n 0).testBit m = true ↔ (t.getD n 0).testBit m = true ∨ S n m)

/-- The buffer `t'` is `t` with the bytes at the indices in `P` overwritten, index `n`
receiving `val n`. -/
def Writes (t t' : List Nat) (P : Nat → Prop) (val : Nat → Nat) : Prop :=
  t'.length = t.length ∧
    ∀ n, n < t.length →
      (P n → t'.getD n 0 = val n) ∧ (¬ P n → t'.getD n 0 = t.getD n 0)

/-- Input for the stride-2 round trip: 254 words (two-block-deep rows, `126 * 2 + 2`), all
zero except word 2, which is 1. -/
def strideTwoBuffer : List Nat := (List.replicate 254 0).set 2 1

/-- The 256 bytes of `EXP_TABLE` as one number, byte `i` at bits `8 * i .. 8 * i + 7`. -/
def EXP_PACKED : Nat :=
  0x017B2E15CEC3492DF3D7FCC0AF34CC5E7E07B49672F6FE5D981E8B1FF031E5FF26B60B45DCB91C1628DA76A47110E762119C4C04528F4D7F7C9A83BC35B7706BC977DF5F0529A158B1BFD3AE4FE24BB0C4FDBB8121029D372A47418E3651695440F51844A79709D8EB935B57A6EC27CD2550127A553BDB0D8A64DE242B3C6F9BF8922079B322E48408A3C5869594EFC1D41AD990BD4E9965A50A3EF2ACD2D561F785738DD04856DDC23203E6193F8982C71BA2BEA8805A2C88F9E90E6C7DE1ADA9FB7439463AA0239FAA1D6D06CFB867383D14B5ED5CE3309ED13378C80CF14ACBEAE87542682F6EE0D687EEBAFA0F1753F4636AB259CA91C6608CAB66431301

/-- The 256 bytes of `LOG_TABLE` as one number, byte `i` at bits `8 * i .. 8 * i + 7`. -/
def LOG_PACKED : Nat :=
  0xE0E9AEF53E12467F5FEA9E0EF76421E371142B92971E451DD154E17929B24117BD8558DB89D66D98F616616FB562265B32FB90F11F09BF234F0775AFFA5770F4B64C6BC4AD13DA31C2DE2CED7B0BB7B0F3B4406304363F4B9B9367D4764DB9393727A9CE80C669E79AEC7372967E086CCAA45C05E587514715745E78C550AC4AC8EF42C7FE8C7C24BED51C3D5DEBD3C181183443C00CA11A300368860DD06006BCF0E82A95490AB894598BA00FCBA28EB36AC9CDB120F95AA63BDC9C021BA59F52652E828A3A3C2FA8A3C3F22556E22819FDF84883A7BAD791DF8F84387AAB7DE4E635D94E6E539D10D8FC2D018DCFD211448822DD669977EE33BBCC55AA0000

/-- Byte `i` of a packed table. -/
def packedGet (p i : Nat) : Nat := (p >>> (8 * i)) % 256

/-- The scalar multiplier on the packed tables. -/
def mulPacked (a b : Nat) : Nat :=
  if a ≠ 0 ∧ b ≠ 0 then
    packedGet EXP_PACKED
      (if packedGet LOG_PACKED a + packedGet LOG_PACKED b > 254
        then packedGet LOG_PACKED a + packedGet LOG_PACKED b - 255
        else packedGet LOG_PACKED a + packedGet LOG_PACKED b)
  else
    0

/-- The XOR of `v i` over the bits `i < n` set in `b`. -/
def xorLin (v : Nat → Nat) : Nat → Nat → Nat
  | 0, _ => 0
  | n + 1, b => xorLin v n b ^^^ (if b.testBit n = true then v n else 0)

/-- The products of the generator `EXP_TABLE[1] = 0x13` with the bytes `1, 2, 4, .., 128`. -/
def generatorRow : List Nat := [0x13, 0x21, 0x4C, 0x84, 0x71, 0x92, 0x54, 0xA8]

/-- The batch of sixteen 128-bit elements in which element `i` is the byte `i` repeated
sixteen times. -/
def patternBatch : List Nat := (List.range 256).map (fun n => n / 16)

/-! ## The `#ifndef UNROLL_TRANSPOSE` branches, intermediate values and store traces -/

/-- Function `bs_transpose_dst` as compiled without `UNROLL_TRANSPOSE`: the body of the `i`
loop is the single loop `for (j = 0; j < WORD_SIZE; j++)`. -/
def bs_transpose_dst_loop (transpose blocks : List Nat) (width_to_adjacent_block : Nat) :
    List Nat :=
  forLoop WORD_SIZE (fun k transpose =>
    let bitpos := ONE <<< k
    forLoop WORDS_PER_BLOCK (fun i transpose =>
      let w := blocks.getD ((k * WORDS_PER_BLOCK * width_to_adjacent_block + i) % WORD_MOD) 0
      let offset := i <<< MUL_SHIFT
      forLoop WORD_SIZE (fun j transpose =>
        transpose.set (offset + j)
          (transpose.getD (offset + j) 0 ||| (if w &&& (ONE <<< j) ≠ 0 then bitpos else 0)))
        transpose) transpose) transpose

/-- The scratch block `transpose` of `bs_transpose_rev` as compiled without
`UNROLL_TRANSPOSE`, after its `k` loop. The index
`j * WORDS_PER_BLOCK * width_to_adjacent_block + offset` is computed in `word_t`; a store
outside the 128-word scratch block (undefined in C) is dropped by `List.set`. -/
def bs_transpose_rev_loop_scratch (blocks : List Nat) (width_to_adjacent_block : Nat) :
    List Nat :=
  forLoop BLOCK_SIZE (fun k transpose =>
    let w := blocks.getD k 0
    let offset := k / WORD_SIZE
    forLoop WORD_SIZE (fun j transpose =>
      let bit := if w &&& (ONE <<< j) ≠ 0 then ONE <<< (k % WORD_SIZE) else 0
      transpose.set ((j * WORDS_PER_BLOCK * width_to_adjacent_block + offset) % WORD_MOD)
        (transpose.getD ((j * WORDS_PER_BLOCK * width_to_adjacent_block + offset) % WORD_MOD) 0
          ||| bit)) transpose) (List.replicate BLOCK_SIZE 0)

/-- Function `bs_transpose_rev(blocks, width_to_adjacent_block)` as compiled without
`UNROLL_TRANSPOSE`: the resulting contents of `blocks`. -/
def bs_transpose_rev_loop (blocks : List Nat) (width_to_adjacent_block : Nat) : List Nat :=
  memmove blocks (bs_transpose_rev_loop_scratch blocks width_to_adjacent_block) BLOCK_SIZE

/-- The value `logc` of `packed_tower_16x8b_multiply(a, b)`, the index vector it passes to
the `EXP_TABLE` lookup. -/
def packed_tower_16x8b_multiply_logc (a b : M128) : M128 :=
  let loga := lookup_16x8b LOG_TABLE a
  let logb := lookup_16x8b LOG_TABLE b
  let sum := vaddq_u8 loga logb
  let overflow := vcgtq_u8 loga sum
  let logc := vsubq_u8 sum overflow
  logc

/-- Function `byte_slice` with its stores recorded: the resulting contents of `output_bytes`,
and the list of the indices `byte_index * NUM_INPUTS + i` of `output_bytes` it stores to, in
program order. -/
def byte_slice_traced (input_bytes output_bytes : List Nat) : List Nat × List Nat :=
  forLoop BYTES_IN_128BIT (fun byte_index st =>
    forLoop NUM_INPUTS (fun i st =>
      (st.1.set (byte_index * NUM_INPUTS + i)
          (input_bytes.getD (i * BYTES_IN_128BIT + byte_index) 0),
        st.2 ++ [byte_index * NUM_INPUTS + i])) st) (output_bytes, [])

/-- A 128-word block whose only set bit is bit 1 of word 0. -/
def bitOneBlock : List Nat := (List.replicate 128 0).set 0 2

/-! ## Index traces of the transposes and the exponent index of the scalar multiplier -/

/-- The statement `transpose[idx] |= (w & (ONE << j)) ? bitpos : 0;` on a state that pairs
the buffer `transpose` with the list of the indices of `transpose` accessed so far. -/
def or_bit_traced (st : List Nat × List Nat) (idx w j bitpos : Nat) : List Nat × List Nat :=
  (or_bit st.1 idx w j bitpos, st.2 ++ [idx])

/-- The unrolled body of the `i` loop of `bs_transpose_dst`, one line per source line, with
the indices of `transpose` it accesses recorded. -/
def bs_transpose_dst_unrolled_traced (st : List Nat × List Nat) (offset w bitpos : Nat) :
    List Nat × List Nat :=
  let st := or_bit_traced st (offset + 0) w 0 bitpos
  let st := or_bit_traced st (offset + 1) w 1 bitpos
  let st := or_bit_traced st (offset + 2) w 2 bitpos
  let st := or_bit_traced st (offset + 3) w 3 bitpos
  let st := or_bit_traced st (offset + 4) w 4 bitpos
  let st := or_bit_traced st (offset + 5) w 5 bitpos
  let st := or_bit_traced st (offset + 6) w 6 bitpos
  let st := or_bit_traced st (offset + 7) w 7 bitpos
  let st := or_bit_traced st (offset + 8) w 8 bitpos
  let st := or_bit_traced st (offset + 9) w 9 bitpos
  let st := or_bit_traced st (offset + 10) w 10 bitpos
  let st := or_bit_traced st (offset + 11) w 11 bitpos
  let st := or_bit_traced st (offset + 12) w 12 bitpos
  let st := or_bit_traced st (offset + 13) w 13 bitpos
  let st := or_bit_traced st (offset + 14) w 14 bitpos
  let st := or_bit_traced st (offset + 15) w 15 bitpos
  let st := or_bit_traced st (offset + 16) w 16 bitpos
  let st := or_bit_traced st (offset + 17) w 17 bitpos
  let st := or_bit_traced st (offset + 18) w 18 bitpos
  let st := or_bit_traced st (offset + 19) w 19 bitpos
  let st := or_bit_traced st (offset + 20) w 20 bitpos
  let st := or_bit_traced st (offset + 21) w 21 bitpos
  let st := or_bit_traced st (offset + 22) w 22 bitpos
  let st := or_bit_traced st (offset + 23) w 23 bitpos
  let st := or_bit_traced st (offset + 24) w 24 bitpos
  let st := or_bit_traced st (offset + 25) w 25 bitpos
  let st := or_bit_traced st (offset + 26) w 26 bitpos
  let st := or_bit_traced st (offset + 27) w 27 bitpos
  let st := or_bit_traced st (offset + 28) w 28 bitpos
  let st := or_bit_traced st (offset + 29) w 29 bitpos
  let st := or_bit_traced st (offset + 30) w 30 bitpos
  let st := or_bit_traced st (offset + 31) w 31 bitpos
  let st := or_bit_traced st (offset + 32) w 32 bitpos
  let st := or_bit_traced st (offset + 33) w 33 bitpos
  let st := or_bit_traced st (offset + 34) w 34 bitpos
  let st := or_bit_traced st (offset + 35) w 35 bitpos
  let st := or_bit_traced st (offset + 36) w 36 bitpos
  let st := or_bit_traced st (offset + 37) w 37 bitpos
  let st := or_bit_traced st (offset + 38) w 38 bitpos
  let st := or_bit_traced st (offset + 39) w 39 bitpos
  let st := or_bit_traced st (offset + 40) w 40 bitpos
  let st := or_bit_traced st (offset + 41) w 41 bitpos
  let st := or_bit_traced st (offset + 42) w 42 bitpos
  let st := or_bit_traced st (offset + 43) w 43 bitpos
  let st := or_bit_traced st (offset + 44) w 44 bitpos
  let st := or_bit_traced st (offset + 45) w 45 bitpos
  let st := or_bit_traced st (offset + 46) w 46 bitpos
  let st := or_bit_traced st (offset + 47) w 47 bitpos
  let st := or_bit_traced st (offset + 48) w 48 bitpos
  let st := or_bit_traced st (offset + 49) w 49 bitpos
  let st := or_bit_traced st (offset + 50) w 50 bitpos
  let st := or_bit_traced st (offset + 51) w 51 bitpos
  let st := or_bit_traced st (offset + 52) w 52 bitpos
  let st := or_bit_traced st (offset + 53) w 53 bitpos
  let st := or_bit_traced st (offset + 54) w 54 bitpos
  let st := or_bit_traced st (offset + 55) w 55 bitpos
  let st := or_bit_traced st (offset + 56) w 56 bitpos
  let st := or_bit_traced st (offset + 57) w 57 bitpos
  let st := or_bit_traced st (offset + 58) w 58 bitpos
  let st := or_bit_traced st (offset + 59) w 59 bitpos
  let st := or_bit_traced st (offset + 60) w 60 bitpos
  let st := or_bit_traced st (offset + 61) w 61 bitpos
  let st := or_bit_traced st (offset + 62) w 62 bitpos
  let st := or_bit_traced st (offset + 63) w 63 bitpos
  st

/-- Function `bs_transpose_dst` as built, with its accesses recorded: the state is
`((transpose, writes), reads)`, where `writes` lists the indices of `transpose` it accesses
and `reads` the indices of `blocks` it reads, both in program order. -/
def bs_transpose_dst_traced (transpose blocks : List Nat) (width_to_adjacent_block : Nat) :
    (List Nat × List Nat) × List Nat :=
  forLoop WORD_SIZE (fun k st =>
    let bitpos := ONE <<< k
    forLoop WORDS_PER_BLOCK (fun i st =>
      let w := blocks.getD ((k * WORDS_PER_BLOCK * width_to_adjacent_block + i) % WORD_MOD) 0
      let offset := i <<< MUL_SHIFT
      (bs_transpose_dst_unrolled_traced st.1 offset w bitpos,
        st.2 ++ [(k * WORDS_PER_BLOCK * width_to_adjacent_block + i) % WORD_MOD])) st)
    ((transpose, []), [])

/-- The unrolled body of the `k` loop of `bs_transpose_rev`, one line per source line, with
the indices of the scratch block it accesses recorded. -/
def bs_transpose_rev_unrolled_traced (st : List Nat × List Nat) (offset w bitpos : Nat) :
    List Nat × List Nat :=
  let st := or_bit_traced st (0 * WORDS_PER_BLOCK + offset) w 0 bitpos
  let st := or_bit_traced st (1 * WORDS_PER_BLOCK + offset) w 1 bitpos
  let st := or_bit_traced st (2 * WORDS_PER_BLOCK + offset) w 2 bitpos
  let st := or_bit_traced st (3 * WORDS_PER_BLOCK + offset) w 3 bitpos
  let st := or_bit_traced st (4 * WORDS_PER_BLOCK + offset) w 4 bitpos
  let st := or_bit_traced st (5 * WORDS_PER_BLOCK + offset) w 5 bitpos
  let st := or_bit_traced st (6 * WORDS_PER_BLOCK + offset) w 6 bitpos
  let st := or_bit_traced st (7 * WORDS_PER_BLOCK + offset) w 7 bitpos
  let st := or_bit_traced st (8 * WORDS_PER_BLOCK + offset) w 8 bitpos
  let st := or_bit_traced st (9 * WORDS_PER_BLOCK + offset) w 9 bitpos
  let st := or_bit_traced st (10 * WORDS_PER_BLOCK + offset) w 10 bitpos
  let st := or_bit_traced st (11 * WORDS_PER_BLOCK + offset) w 11 bitpos
  let st := or_bit_traced st (12 * WORDS_PER_BLOCK + offset) w 12 bitpos
  let st := or_bit_traced st (13 * WORDS_PER_BLOCK + offset) w 13 bitpos
  let st := or_bit_traced st (14 * WORDS_PER_BLOCK + offset) w 14 bitpos
  let st := or_bit_traced st (15 * WORDS_PER_BLOCK + offset) w 15 bitpos
  let st := or_bit_traced st (16 * WORDS_PER_BLOCK + offset) w 16 bitpos
  let st := or_bit_traced st (17 * WORDS_PER_BLOCK + offset) w 17 bitpos
  let st := or_bit_traced st (18 * WORDS_PER_BLOCK + offset) w 18 bitpos
  let st := or_bit_traced st (19 * WORDS_PER_BLOCK + offset) w 19 bitpos
  let st := or_bit_traced st (20 * WORDS_PER_BLOCK + offset) w 20 bitpos
  let st := or_bit_traced st (21 * WORDS_PER_BLOCK + offset) w 21 bitpos
  let st := or_bit_traced st (22 * WORDS_PER_BLOCK + offset) w 22 bitpos
  let st := or_bit_traced st (23 * WORDS_PER_BLOCK + offset) w 23 bitpos
  let st := or_bit_traced st (24 * WORDS_PER_BLOCK + offset) w 24 bitpos
  let st := or_bit_traced st (25 * WORDS_PER_BLOCK + offset) w 25 bitpos
  let st := or_bit_traced st (26 * WORDS_PER_BLOCK + offset) w 26 bitpos
  let st := or_bit_traced st (27 * WORDS_PER_BLOCK + offset) w 27 bitpos
  let st := or_bit_traced st (28 * WORDS_PER_BLOCK + offset) w 28 bitpos
  let st := or_bit_traced st (29 * WORDS_PER_BLOCK + offset) w 29 bitpos
  let st := or_bit_traced st (30 * WORDS_PER_BLOCK + offset) w 30 bitpos
  let st := or_bit_traced st (31 * WORDS_PER_BLOCK + offset) w 31 bitpos
  let st := or_bit_traced st (32 * WORDS_PER_BLOCK + offset) w 32 bitpos
  let st := or_bit_traced st (33 * WORDS_PER_BLOCK + offset) w 33 bitpos
  let st := or_bit_traced st (34 * WORDS_PER_BLOCK + offset) w 34 bitpos
  let st := or_bit_traced st (35 * WORDS_PER_BLOCK + offset) w 35 bitpos
  let st := or_bit_traced st (36 * WORDS_PER_BLOCK + offset) w 36 bitpos
  let st := or_bit_traced st (37 * WORDS_PER_BLOCK + offset) w 37 bitpos
  let st := or_bit_traced st (38 * WORDS_PER_BLOCK + offset) w 38 bitpos
  let st := or_bit_traced st (39 * WORDS_PER_BLOCK + offset) w 39 bitpos
  let st := or_bit_traced st (40 * WORDS_PER_BLOCK + offset) w 40 bitpos
  let st := or_bit_traced st (41 * WORDS_PER_BLOCK + offset) w 41 bitpos
  let st := or_bit_traced st (42 * WORDS_PER_BLOCK + offset) w 42 bitpos
  let st := or_bit_traced st (43 * WORDS_PER_BLOCK + offset) w 43 bitpos
  let st := or_bit_traced st (44 * WORDS_PER_BLOCK + offset) w 44 bitpos
  let st := or_bit_traced st (45 * WORDS_PER_BLOCK + offset) w 45 bitpos
  let st := or_bit_traced st (46 * WORDS_PER_BLOCK + offset) w 46 bitpos
  let st := or_bit_traced st (47 * WORDS_PER_BLOCK + offset) w 47 bitpos
  let st := or_bit_traced st (48 * WORDS_PER_BLOCK + offset) w 48 bitpos
  let st := or_bit_traced st (49 * WORDS_PER_BLOCK + offset) w 49 bitpos
  let st := or_bit_traced st (50 * WORDS_PER_BLOCK + offset) w 50 bitpos
  let st := or_bit_traced st (51 * WORDS_PER_BLOCK + offset) w 51 bitpos
  let st := or_bit_traced st (52 * WORDS_PER_BLOCK + offset) w 52 bitpos
  let st := or_bit_traced st (53 * WORDS_PER_BLOCK + offset) w 53 bitpos
  let st := or_bit_traced st (54 * WORDS_PER_BLOCK + offset) w 54 bitpos
  let st := or_bit_traced st (55 * WORDS_PER_BLOCK + offset) w 55 bitpos
  let st := or_bit_traced st (56 * WORDS_PER_BLOCK + offset) w 56 bitpos
  let st := or_bit_traced st (57 * WORDS_PER_BLOCK + offset) w 57 bitpos
  let st := or_bit_traced st (58 * WORDS_PER_BLOCK + offset) w 58 bitpos
  let st := or_bit_traced st (59 * WORDS_PER_BLOCK + offset) w 59 bitpos
  let st := or_bit_traced st (60 * WORDS_PER_BLOCK + offset) w 60 bitpos
  let st := or_bit_traced st (61 * WORDS_PER_BLOCK + offset) w 61 bitpos
  let st := or_bit_traced st (62 * WORDS_PER_BLOCK + offset) w 62 bitpos
  let st := or_bit_traced st (63 * WORDS_PER_BLOCK + offset) w 63 bitpos
  st

/-- The `k` loop of `bs_transpose_rev` as built, with its accesses recorded: the state is
`((transpose, writes), reads)`, where `writes` lists the indices of the scratch block
`transpose` it accesses and `reads` the indices of `blocks` it reads, in program order. -/
def bs_transpose_rev_scratch_traced (blocks : List Nat) : (List Nat × List Nat) × List Nat :=
  forLoop BLOCK_SIZE (fun k st =>
    let w := blocks.getD k 0
    let bitpos := ONE <<< (k % WORD_SIZE)
    let offset := k / WORD_SIZE
    (bs_transpose_rev_unrolled_traced st.1 offset w bitpos, st.2 ++ [k]))
    ((List.replicate BLOCK_SIZE 0, []), [])

/-- The value of `log_table_index` at the read `exp_table[log_table_index]` of
`multiply_8b_using_log_table`, which is executed when `lhs != 0 && rhs != 0`. -/
def multiply_8b_using_log_table_index (lhs rhs : Nat) (log_table : List Nat) : Nat :=
  let log_table_index := log_table.getD lhs 0 + log_table.getD rhs 0
  let log_table_index :=
    if log_table_index > 254 then log_table_index - 255 else log_table_index
  log_table_index

/-- A 128-word block whose only set bit is bit `m` of word `n`. -/
def singleBitBlock (n m : Nat) : List Nat := (List.replicate 128 0).set n (ONE <<< m)

/-! ## Loop and bit-accumulation lemmas -/

theorem forLoop_succ {σ : Type} (n : Nat) (body : Nat → σ → σ) (st : σ) :
    forLoop (n + 1) body st = body n (forLoop n body st) := rfl

theorem forLoop_add {σ : Type} (a b : Nat) (body : Nat → σ → σ) (st : σ) :
    forLoop (a + b) body st = forLoop b (fun j => body (a + j)) (forLoop a body st) := by
  induction b with
  | zero => rfl
  | succ b ih => rw [← Nat.add_assoc, forLoop_succ, forLoop_succ, ih]

theorem forLoop_eight {σ : Type} (body : Nat → σ → σ) (st : σ) :
    forLoop 8 body st =
      body 7 (body 6 (body 5 (body 4 (body 3 (body 2 (body 1 (body 0 st))))))) := rfl

/-- A loop of 64 iterations, cut into eight runs of eight. -/
theorem forLoop_sixty_four {σ : Type} (body : Nat → σ → σ) (st : σ) :
    forLoop 64 body st =
      forLoop 8 (fun j => body (56 + j)) (forLoop 8 (fun j => body (48 + j))
        (forLoop 8 (fun j => body (40 + j)) (forLoop 8 (fun j => body (32 + j))
          (forLoop 8 (fun j => body (24 + j)) (forLoop 8 (fun j => body (16 + j))
            (forLoop 8 (fun j => body (8 + j)) (forLoop 8 body st))))))) := by
  rw [show (64 : Nat) = 56 + 8 from rfl, forLoop_add, show (56 : Nat) = 48 + 8 from rfl,
    forLoop_add, show (48 : Nat) = 40 + 8 from rfl, forLoop_add,
    show (40 : Nat) = 32 + 8 from rfl, forLoop_add, show (32 : Nat) = 24 + 8 from rfl,
    forLoop_add, show (24 : Nat) = 16 + 8 from rfl, forLoop_add,
    show (16 : Nat) = 8 + 8 from rfl, forLoop_add]

/-- The test `(w & (ONE << j)) != 0` of the source is the test of bit `j` of `w`. -/
theorem land_one_shiftLeft_ne_zero (w j : Nat) :
    w &&& (ONE <<< j) ≠ 0 ↔ w.testBit j = true := by
  rw [Nat.one_shiftLeft]
  constructor
  · intro h
    by_contra hc
    apply h
    apply Nat.eq_of_testBit_eq
    intro i
    rw [Nat.testBit_and, Nat.testBit_two_pow, Nat.zero_testBit]
    by_cases hji : j = i
    · subst hji
      simp [hc]
    · simp [hji]
  · intro h h0
    have h1 : (w &&& 2 ^ j).testBit j = true := by
      rw [Nat.testBit_and, h, Nat.testBit_two_pow_self]
      rfl
    rw [h0, Nat.zero_testBit] at h1
    exact Bool.false_ne_true h1

theorem or_bit_length (t : List Nat) (idx w j bp : Nat) :
    (or_bit t idx w j bp).length = t.length := by
  simp [or_bit]

theorem or_bit_getD (t : List Nat) (idx w j bp n : Nat) (hn : n < t.length) :
    (or_bit t idx w j bp).getD n 0 =
      if idx = n then t.getD n 0 ||| (if w.testBit j = true then bp else 0) else t.getD n 0 := by
  simp only [or_bit, land_one_shiftLeft_ne_zero]
  rw [List.getD_eq_getElem?_getD, List.getD_eq_getElem?_getD, List.getElem?_set]
  by_cases h : idx = n
  · subst h
    simp [hn, List.getD_eq_getElem?_getD]
  · simp [h]

theorem or_bit_orAcc (idx w j bp : Nat) (t : List Nat) :
    OrAcc t (or_bit t idx w j bp)
      (fun n m => idx = n ∧ w.testBit j = true ∧ bp.testBit m = true) := by
  refine ⟨or_bit_length t idx w j bp, ?_⟩
  intro n m hn
  rw [or_bit_getD t idx w j bp n hn]
  by_cases h : idx = n
  · by_cases hw : w.testBit j = true
    · simp [h, hw, Nat.testBit_or]
    · simp [h, hw]
  · simp [h]

/-- A loop whose every iteration only ORs bits in, only ORs bits in. -/
theorem forLoop_orAcc (J : Nat) (body : Nat → List Nat → List Nat)
    (S : Nat → Nat → Nat → Prop) (h : ∀ j, j < J → ∀ t, OrAcc t (body j t) (S j))
    (t : List Nat) :
    OrAcc t (forLoop J body t) (fun n m => ∃ j, j < J ∧ S j n m) := by
  induction J with
  | zero =>
    refine ⟨rfl, ?_⟩
    intro n m _
    simp [forLoop]
  | succ J ih =>
    have hprev := ih (fun j hj => h j (Nat.lt_succ_of_lt hj))
    have hlast := h J (Nat.lt_succ_self J) (forLoop J body t)
    rw [forLoop_succ]
    refine ⟨hlast.1.trans hprev.1, ?_⟩
    intro n m hn
    rw [hlast.2 n m (by rw [hprev.1]; exact hn), hprev.2 n m hn]
    constructor
    · rintro ((h0 | ⟨j, hj, hs⟩) | hs)
      · exact Or.inl h0
      · exact Or.inr ⟨j, Nat.lt_succ_of_lt hj, hs⟩
      · exact Or.inr ⟨J, Nat.lt_succ_self J, hs⟩
    · rintro (h0 | ⟨j, hj, hs⟩)
      · exact Or.inl (Or.inl h0)
      · rcases Nat.lt_succ_iff_lt_or_eq.mp hj with hlt | heq
        · exact Or.inl (Or.inr ⟨j, hlt, hs⟩)
        · subst heq
          exact Or.inr hs

theorem bs_transpose_dst_unrolled_eq_forLoop (t : List Nat) (offset w bitpos : Nat) :
    bs_transpose_dst_unrolled t offset w bitpos =
      forLoop 64 (fun j t => or_bit t (offset + j) w j bitpos) t := by
  rw [forLoop_sixty_four]
  simp only [forLoop_eight]
  rfl

theorem bs_transpose_rev_unrolled_eq_forLoop (t : List Nat) (offset w bitpos : Nat) :
    bs_transpose_rev_unrolled t offset w bitpos =
      forLoop 64 (fun j t => or_bit t (j * WORDS_PER_BLOCK + offset) w j bitpos) t := by
  rw [forLoop_sixty_four]
  simp only [forLoop_eight]
  rfl

/-- Which bits the unrolled body of `bs_transpose_dst` ORs into the destination. -/
theorem bs_transpose_dst_unrolled_orAcc (offset w bitpos : Nat) (t : List Nat) :
    OrAcc t (bs_transpose_dst_unrolled t offset w bitpos)
      (fun n m => ∃ j, j < 64 ∧
        (offset + j = n ∧ w.testBit j = true ∧ bitpos.testBit m = true)) := by
  rw [bs_transpose_dst_unrolled_eq_forLoop]
  exact forLoop_orAcc 64 (fun j t => or_bit t (offset + j) w j bitpos)
    (fun j n m => offset + j = n ∧ w.testBit j = true ∧ bitpos.testBit m = true)
    (fun j _ t => or_bit_orAcc (offset + j) w j bitpos t) t

/-- Which bits the unrolled body of `bs_transpose_rev` ORs into the scratch block. -/
theorem bs_transpose_rev_unrolled_orAcc (offset w bitpos : Nat) (t : List Nat) :
    OrAcc t (bs_transpose_rev_unrolled t offset w bitpos)
      (fun n m => ∃ j, j < 64 ∧
        (j * WORDS_PER_BLOCK + offset = n ∧ w.testBit j = true ∧
          bitpos.testBit m = true)) := by
  rw [bs_transpose_rev_unrolled_eq_forLoop]
  exact forLoop_orAcc 64 (fun j t => or_bit t (j * WORDS_PER_BLOCK + offset) w j bitpos)
    (fun j n m => j * WORDS_PER_BLOCK + offset = n ∧ w.testBit j = true ∧
      bitpos.testBit m = true)
    (fun j _ t => or_bit_orAcc (j * WORDS_PER_BLOCK + offset) w j bitpos t) t

/-- Which bits `bs_transpose_dst` ORs into its destination. -/
theorem bs_transpose_dst_orAcc (blocks : List Nat) (s : Nat) (t : List Nat) :
    OrAcc t (bs_transpose_dst t blocks s)
      (fun n m => ∃ k, k < WORD_SIZE ∧ ∃ i, i < WORDS_PER_BLOCK ∧ ∃ j, j < 64 ∧
        ((i <<< MUL_SHIFT) + j = n ∧
        (blocks.getD ((k * WORDS_PER_BLOCK * s + i) % WORD_MOD) 0).testBit j = true ∧
        (ONE <<< k).testBit m = true)) :=
  forLoop_orAcc WORD_SIZE _ _ (fun k _ t =>
    forLoop_orAcc WORDS_PER_BLOCK _ _ (fun i _ t =>
      bs_transpose_dst_unrolled_orAcc (i <<< MUL_SHIFT)
        (blocks.getD ((k * WORDS_PER_BLOCK * s + i) % WORD_MOD) 0) (ONE <<< k) t) t) t

/-- Which bits the `k` loop of `bs_transpose_rev` ORs into its scratch block. -/
theorem bs_transpose_rev_scratch_orAcc (blocks : List Nat) :
    OrAcc (List.replicate BLOCK_SIZE 0) (bs_transpose_rev_scratch blocks)
      (fun n m => ∃ k, k < BLOCK_SIZE ∧ ∃ j, j < 64 ∧
        (j * WORDS_PER_BLOCK + k / WORD_SIZE = n ∧
        (blocks.getD k 0).testBit j = true ∧
        (ONE <<< (k % WORD_SIZE)).testBit m = true)) :=
  forLoop_orAcc BLOCK_SIZE _ _ (fun k _ t =>
    bs_transpose_rev_unrolled_orAcc (k / WORD_SIZE) (blocks.getD k 0)
      (ONE <<< (k % WORD_SIZE)) t) _

/-! ## Bitwise description of the two transposes -/

theorem one_shiftLeft_testBit (a b : Nat) : (ONE <<< a).testBit b = true ↔ a = b := by
  rw [Nat.one_shiftLeft, Nat.testBit_two_pow]
  simp

theorem replicate_zero_getD_testBit (N n m : Nat) :
    ((List.replicate N 0).getD n 0).testBit m = false := by
  have h : (List.replicate N 0).getD n 0 = 0 := by
    rw [List.getD_eq_getElem?_getD, List.getElem?_replicate]
    split <;> rfl
  rw [h, Nat.zero_testBit]

theorem list_ext_getD (l l' : List Nat) (hlen : l.length = l'.length)
    (h : ∀ n, n < l.length → l.getD n 0 = l'.getD n 0) : l = l' := by
  apply List.ext_getElem hlen
  intro n h1 h2
  have := h n h1
  rw [List.getD_eq_getElem?_getD, List.getD_eq_getElem?_getD, List.getElem?_eq_getElem h1,
    List.getElem?_eq_getElem h2] at this
  simpa using this

theorem memmove_length (dst src : List Nat) (n : Nat) (hs : n ≤ src.length)
    (hd : n ≤ dst.length) : (memmove dst src n).length = dst.length := by
  simp only [memmove, List.length_append, List.length_take, List.length_drop]
  omega

theorem memmove_getD_lt (dst src : List Nat) (n i : Nat) (hs : n ≤ src.length) (hi : i < n) :
    (memmove dst src n).getD i 0 = src.getD i 0 := by
  have h1 : i < (src.take n).length := by
    rw [List.length_take]
    omega
  rw [memmove, List.getD_eq_getElem?_getD, List.getD_eq_getElem?_getD,
    List.getElem?_append_left h1, List.getElem?_take_of_lt hi]

theorem memmove_getD_ge (dst src : List Nat) (n i : Nat) (hs : n ≤ src.length) (hi : n ≤ i) :
    (memmove dst src n).getD i 0 = dst.getD i 0 := by
  have h1 : (src.take n).length = n := by
    rw [List.length_take]
    omega
  rw [memmove, List.getD_eq_getElem?_getD, List.getD_eq_getElem?_getD,
    List.getElem?_append_right (by omega), h1, List.getElem?_drop]
  congr 2
  omega

theorem bs_transpose_dst_length (t blocks : List Nat) (s : Nat) :
    (bs_transpose_dst t blocks s).length = t.length :=
  (bs_transpose_dst_orAcc blocks s t).1

theorem bs_transpose_rev_scratch_length (blocks : List Nat) :
    (bs_transpose_rev_scratch blocks).length = 128 := by
  rw [(bs_transpose_rev_scratch_orAcc blocks).1, List.length_replicate]

/-- Bit `m` of word `n` of `bs_transpose_dst` on a zeroed destination: bit `n % 64` of the
input word of row `m` and lane `n / 64`. -/
theorem bs_transpose_dst_zero_testBit (blocks : List Nat) (s n m : Nat) (hn : n < 128) :
    ((bs_transpose_dst (List.replicate BLOCK_SIZE 0) blocks s).getD n 0).testBit m = true ↔
      m < 64 ∧ (blocks.getD ((m * 2 * s + n / 64) % 2 ^ 64) 0).testBit (n % 64) = true := by
  rw [(bs_transpose_dst_orAcc blocks s _).2 n m (by rw [List.length_replicate]; exact hn),
    replicate_zero_getD_testBit]
  simp only [one_shiftLeft_testBit]
  simp only [Nat.shiftLeft_eq, show WORDS_PER_BLOCK = 2 from rfl, show WORD_SIZE = 64 from rfl,
    show MUL_SHIFT = 6 from rfl, show WORD_MOD = 2 ^ 64 from rfl,
    show (2 : Nat) ^ 6 = 64 from rfl]
  constructor
  · rintro (h | ⟨k, hk, i, hi, j, hj, hnij, hb, hkm⟩)
    · exact absurd h Bool.false_ne_true
    · subst hkm
      have h1 : n / 64 = i := by omega
      have h2 : n % 64 = j := by omega
      rw [h1, h2]
      exact ⟨hk, hb⟩
  · rintro ⟨hm, hb⟩
    exact Or.inr ⟨m, hm, n / 64, by omega, n % 64, by omega, by omega, hb, rfl⟩

/-- Bit `m` of word `n` of the scratch block of `bs_transpose_rev`: bit `n / 2` of the
input word `(n % 2) * 64 + m`. -/
theorem bs_transpose_rev_scratch_testBit (blocks : List Nat) (n m : Nat) (hn : n < 128) :
    ((bs_transpose_rev_scratch blocks).getD n 0).testBit m = true ↔
      m < 64 ∧ (blocks.getD (n % 2 * 64 + m) 0).testBit (n / 2) = true := by
  rw [(bs_transpose_rev_scratch_orAcc blocks).2 n m (by rw [List.length_replicate]; exact hn),
    replicate_zero_getD_testBit]
  simp only [one_shiftLeft_testBit]
  simp only [show WORDS_PER_BLOCK = 2 from rfl, show WORD_SIZE = 64 from rfl,
    show BLOCK_SIZE = 128 from rfl]
  constructor
  · rintro (h | ⟨k, hk, j, hj, hnj, hb, hkm⟩)
    · exact absurd h Bool.false_ne_true
    · have h1 : n % 2 * 64 + m = k := by omega
      have h2 : n / 2 = j := by omega
      rw [h1, h2]
      exact ⟨by omega, hb⟩
  · rintro ⟨hm, hb⟩
    exact Or.inr ⟨n % 2 * 64 + m, by omega, n / 2, by omega, by omega, hb, by omega⟩

/-! ## Round trip of the bit transposes -/

theorem bs_transpose_length (B : List Nat) (s : Nat) (hlen : 128 ≤ B.length) :
    (bs_transpose B s).length = B.length := by
  unfold bs_transpose
  exact memmove_length _ _ _ (by rw [bs_transpose_dst_length, List.length_replicate]) hlen

theorem bs_transpose_getD_lt (B : List Nat) (s n : Nat) (hn : n < 128) :
    (bs_transpose B s).getD n 0 =
      (bs_transpose_dst (List.replicate BLOCK_SIZE 0) B s).getD n 0 := by
  unfold bs_transpose
  exact memmove_getD_lt _ _ _ _
    (by rw [bs_transpose_dst_length, List.length_replicate]) hn

theorem bs_transpose_getD_ge (B : List Nat) (s n : Nat) (hn : 128 ≤ n) :
    (bs_transpose B s).getD n 0 = B.getD n 0 := by
  unfold bs_transpose
  exact memmove_getD_ge _ _ _ _
    (by rw [bs_transpose_dst_length, List.length_replicate]) hn

theorem bs_transpose_rev_length (B : List Nat) (s : Nat) (hlen : 128 ≤ B.length) :
    (bs_transpose_rev B s).length = B.length := by
  unfold bs_transpose_rev
  exact memmove_length _ _ _ (by rw [bs_transpose_rev_scratch_length]) hlen

theorem bs_transpose_rev_getD_lt (B : List Nat) (s n : Nat) (hn : n < 128) :
    (bs_transpose_rev B s).getD n 0 = (bs_transpose_rev_scratch B).getD n 0 := by
  unfold bs_transpose_rev
  exact memmove_getD_lt _ _ _ _ (by rw [bs_transpose_rev_scratch_length]) hn

theorem bs_transpose_rev_getD_ge (B : List Nat) (s n : Nat) (hn : 128 ≤ n) :
    (bs_transpose_rev B s).getD n 0 = B.getD n 0 := by
  unfold bs_transpose_rev
  exact memmove_getD_ge _ _ _ _ (by rw [bs_transpose_rev_scratch_length]) hn

/-- Word `n < 128` after `bs_transpose` then `bs_transpose_rev` (as built): the original
word at the strided index `(n / 2) * 2 * s + n % 2`, whatever the stride. -/
theorem bs_transpose_rev_transpose_getD (B : List Nat) (s n : Nat) (hn : n < 128) :
    (bs_transpose_rev (bs_transpose B s) s).getD n 0 =
      B.getD ((n / 2 * 2 * s + n % 2) % 2 ^ 64) 0 % 2 ^ 64 := by
  apply Nat.eq_of_testBit_eq
  intro m
  rw [Bool.eq_iff_iff, bs_transpose_rev_getD_lt _ _ _ hn,
    bs_transpose_rev_scratch_testBit _ _ _ hn, Nat.testBit_mod_two_pow]
  constructor
  · rintro ⟨hm, hb⟩
    rw [bs_transpose_getD_lt _ _ _ (by omega),
      bs_transpose_dst_zero_testBit _ _ _ _ (by omega)] at hb
    have h1 : (n % 2 * 64 + m) / 64 = n % 2 := by omega
    have h2 : (n % 2 * 64 + m) % 64 = m := by omega
    rw [h1, h2] at hb
    rw [Bool.and_eq_true, decide_eq_true_eq]
    exact ⟨hm, hb.2⟩
  · intro h
    simp only [Bool.and_eq_true, decide_eq_true_eq] at h
    refine ⟨h.1, ?_⟩
    rw [bs_transpose_getD_lt _ _ _ (by omega),
      bs_transpose_dst_zero_testBit _ _ _ _ (by omega)]
    have h1 : (n % 2 * 64 + m) / 64 = n % 2 := by omega
    have h2 : (n % 2 * 64 + m) % 64 = m := by omega
    rw [h1, h2]
    exact ⟨by omega, h.2⟩

/-! ## The constant tables, through their packed copies -/

theorem packedGet_lt (p i : Nat) : packedGet p i < 256 :=
  Nat.mod_lt _ (by decide)

theorem packedGet_eq_zero_of_lt (p i k : Nat) (hp : p < 2 ^ (8 * k)) (hi : k ≤ i) :
    packedGet p i = 0 := by
  have h1 : (2 : Nat) ^ (8 * k) ≤ 2 ^ (8 * i) :=
    Nat.pow_le_pow_right (by decide) (by omega)
  rw [packedGet, Nat.shiftRight_eq_div_pow, Nat.div_eq_of_lt (Nat.lt_of_lt_of_le hp h1)]

theorem LOG_TABLE_length : LOG_TABLE.length = 256 := by decide!

theorem EXP_TABLE_length : EXP_TABLE.length = 256 := by decide!

theorem BINARY_TOWER_8B_MUL_ALPHA_MAP_length : BINARY_TOWER_8B_MUL_ALPHA_MAP.length = 256 := by
  decide!

theorem LOG_PACKED_lt : LOG_PACKED < 2 ^ (8 * 256) := by decide!

theorem EXP_PACKED_lt : EXP_PACKED < 2 ^ (8 * 256) := by decide!

theorem LOG_TABLE_getD (i : Nat) : LOG_TABLE.getD i 0 = packedGet LOG_PACKED i := by
  by_cases h : i < 256
  · have hall : ∀ i, i < 256 → LOG_TABLE.getD i 0 = packedGet LOG_PACKED i := by decide!
    exact hall i h
  · rw [packedGet_eq_zero_of_lt _ i 256 LOG_PACKED_lt (by omega)]
    exact List.getD_eq_default _ _ (by
      rw [LOG_TABLE_length]
      omega)

theorem EXP_TABLE_getD (i : Nat) : EXP_TABLE.getD i 0 = packedGet EXP_PACKED i := by
  by_cases h : i < 256
  · have hall : ∀ i, i < 256 → EXP_TABLE.getD i 0 = packedGet EXP_PACKED i := by decide!
    exact hall i h
  · rw [packedGet_eq_zero_of_lt _ i 256 EXP_PACKED_lt (by omega)]
    exact List.getD_eq_default _ _ (by
      rw [EXP_TABLE_length]
      omega)

theorem multiply_eq_mulPacked (a b : Nat) :
    multiply_8b_using_log_table a b LOG_TABLE EXP_TABLE = mulPacked a b := by
  simp only [multiply_8b_using_log_table, mulPacked, LOG_TABLE_getD, EXP_TABLE_getD]

/-- Every logarithm in the table is at most 254. -/
theorem log_le : ∀ x, x < 256 → packedGet LOG_PACKED x ≤ 254 := by decide!

/-- Table fact `exp[log[x]] = x` for a nonzero byte `x`. -/
theorem exp_log : ∀ x, x < 256 → x ≠ 0 →
    packedGet EXP_PACKED (packedGet LOG_PACKED x) = x := by
  decide!

/-- Table fact `log[exp[e]] = e` and `exp[e]` is nonzero, for an exponent `e < 255`. -/
theorem log_exp : ∀ e, e < 255 →
    packedGet LOG_PACKED (packedGet EXP_PACKED e) = e ∧ packedGet EXP_PACKED e ≠ 0 := by
  decide!

theorem exp_zero : packedGet EXP_PACKED 0 = 1 := by decide!

theorem exp_one : packedGet EXP_PACKED 1 = 0x13 := by decide!

theorem exp_255 : packedGet EXP_PACKED 255 = 1 := by decide!

theorem mulPacked_one_left : ∀ b, b < 256 → mulPacked 1 b = b := by decide!

theorem mulPacked_generator : ∀ b, b < 256 →
    mulPacked 0x13 b = xorLin (fun i => generatorRow.getD i 0) 8 b := by decide!

theorem mulPacked_lt (a b : Nat) : mulPacked a b < 256 := by
  unfold mulPacked
  split
  · exact packedGet_lt _ _
  · decide

theorem mulPacked_zero_right (a : Nat) : mulPacked a 0 = 0 := by
  simp [mulPacked]

theorem mulPacked_zero_left (b : Nat) : mulPacked 0 b = 0 := by
  simp [mulPacked]

/-- For nonzero bytes the product is `exp[(log a + log b) mod 255]`. -/
theorem mulPacked_eq_exp (a b : Nat) (ha : a < 256) (hb : b < 256) (ha0 : a ≠ 0)
    (hb0 : b ≠ 0) :
    mulPacked a b =
      packedGet EXP_PACKED ((packedGet LOG_PACKED a + packedGet LOG_PACKED b) % 255) := by
  have h1 := log_le a ha
  have h2 := log_le b hb
  unfold mulPacked
  rw [if_pos ⟨ha0, hb0⟩]
  congr 1
  split <;> omega

/-! ## XOR-linearity -/

theorem xor_xor_xor_swap (a b c d : Nat) :
    (a ^^^ b) ^^^ (c ^^^ d) = (a ^^^ c) ^^^ (b ^^^ d) := by
  apply Nat.eq_of_testBit_eq
  intro i
  simp only [Nat.testBit_xor]
  cases a.testBit i <;> cases b.testBit i <;> cases c.testBit i <;> cases d.testBit i <;> rfl

theorem xorLin_xor (v : Nat → Nat) (n b c : Nat) :
    xorLin v n (b ^^^ c) = xorLin v n b ^^^ xorLin v n c := by
  induction n with
  | zero => simp [xorLin]
  | succ n ih =>
    have hbit : (if (b ^^^ c).testBit n = true then v n else 0) =
        (if b.testBit n = true then v n else 0) ^^^ (if c.testBit n = true then v n else 0) := by
      rw [Nat.testBit_xor]
      cases b.testBit n <;> cases c.testBit n <;> simp
    simp only [xorLin]
    rw [ih, hbit, xor_xor_xor_swap]

theorem xor_lt_256 (b c : Nat) (hb : b < 256) (hc : c < 256) : b ^^^ c < 256 :=
  Nat.xor_lt_two_pow (n := 8) hb hc

/-- Multiplication by the generator `0x13` is XOR-linear. -/
theorem mulPacked_generator_xor (b c : Nat) (hb : b < 256) (hc : c < 256) :
    mulPacked 0x13 (b ^^^ c) = mulPacked 0x13 b ^^^ mulPacked 0x13 c := by
  rw [mulPacked_generator _ (xor_lt_256 b c hb hc), mulPacked_generator b hb,
    mulPacked_generator c hc, xorLin_xor]

/-- Multiplying by `exp[i + 1]` is multiplying by `exp[i]` and then by the generator. -/
theorem mulPacked_exp_succ (i b : Nat) (hi : i + 1 < 255) (hb : b < 256) :
    mulPacked (packedGet EXP_PACKED (i + 1)) b =
      mulPacked 0x13 (mulPacked (packedGet EXP_PACKED i) b) := by
  by_cases hb0 : b = 0
  · subst hb0
    rw [mulPacked_zero_right, mulPacked_zero_right, mulPacked_zero_right]
  · have hLb := log_le b hb
    have hi0 := log_exp i (by omega)
    have hi1 := log_exp (i + 1) hi
    have hg := log_exp 1 (by decide)
    rw [exp_one] at hg
    have he := log_exp ((i + packedGet LOG_PACKED b) % 255) (Nat.mod_lt _ (by decide))
    rw [mulPacked_eq_exp _ b (packedGet_lt _ _) hb hi1.2 hb0, hi1.1,
      mulPacked_eq_exp _ b (packedGet_lt _ _) hb hi0.2 hb0, hi0.1,
      mulPacked_eq_exp 0x13 _ (by decide) (packedGet_lt _ _) (by decide) he.2, hg.1, he.1]
    congr 1
    omega

/-- Multiplication by `exp[i]` is XOR-linear. -/
theorem mulPacked_exp_xor (i : Nat) (hi : i < 255) (b c : Nat) (hb : b < 256) (hc : c < 256) :
    mulPacked (packedGet EXP_PACKED i) (b ^^^ c) =
      mulPacked (packedGet EXP_PACKED i) b ^^^ mulPacked (packedGet EXP_PACKED i) c := by
  induction i with
  | zero =>
    rw [exp_zero, mulPacked_one_left _ (xor_lt_256 b c hb hc), mulPacked_one_left b hb,
      mulPacked_one_left c hc]
  | succ i ih =>
    rw [mulPacked_exp_succ i _ hi (xor_lt_256 b c hb hc), mulPacked_exp_succ i b hi hb,
      mulPacked_exp_succ i c hi hc, ih (by omega),
      mulPacked_generator_xor _ _ (mulPacked_lt _ _) (mulPacked_lt _ _)]

/-- The packed multiplier distributes over XOR. -/
theorem mulPacked_xor (a b c : Nat) (ha : a < 256) (hb : b < 256) (hc : c < 256) :
    mulPacked a (b ^^^ c) = mulPacked a b ^^^ mulPacked a c := by
  by_cases ha0 : a = 0
  · subst ha0
    rw [mulPacked_zero_left, mulPacked_zero_left, mulPacked_zero_left]
    rfl
  · have h := mulPacked_exp_xor (packedGet LOG_PACKED a)
      (Nat.lt_succ_of_le (log_le a ha)) b c hb hc
    rw [exp_log a ha ha0] at h
    exact h

/-! ## Byte slicing as a byte permutation -/

theorem set_writes (t : List Nat) (idx x : Nat) (val : Nat → Nat) (hval : val idx = x) :
    Writes t (t.set idx x) (fun n => n = idx) val := by
  refine ⟨List.length_set _ _ _, ?_⟩
  intro n hn
  rw [List.getD_eq_getElem?_getD, List.getD_eq_getElem?_getD, List.getElem?_set]
  constructor
  · intro h
    subst h
    simp [hn, hval]
  · intro h
    rw [if_neg (fun h' => h h'.symm)]

/-- A loop whose every iteration overwrites bytes with `val`, overwrites bytes with `val`. -/
theorem forLoop_writes (J : Nat) (body : Nat → List Nat → List Nat)
    (P : Nat → Nat → Prop) (val : Nat → Nat)
    (h : ∀ j, j < J → ∀ t, Writes t (body j t) (P j) val) (t : List Nat) :
    Writes t (forLoop J body t) (fun n => ∃ j, j < J ∧ P j n) val := by
  induction J with
  | zero =>
    refine ⟨rfl, ?_⟩
    intro n _
    constructor
    · rintro ⟨j, hj, _⟩
      exact absurd hj (Nat.not_lt_zero j)
    · intro _
      rfl
  | succ J ih =>
    have hprev := ih (fun j hj => h j (Nat.lt_succ_of_lt hj))
    have hlast := h J (Nat.lt_succ_self J) (forLoop J body t)
    rw [forLoop_succ]
    refine ⟨hlast.1.trans hprev.1, ?_⟩
    intro n hn
    have hl := hlast.2 n (by rw [hprev.1]; exact hn)
    have hp := hprev.2 n hn
    by_cases hJ : P J n
    · constructor
      · intro _
        exact hl.1 hJ
      · intro hne
        exact absurd ⟨J, Nat.lt_succ_self J, hJ⟩ hne
    · rw [hl.2 hJ]
      constructor
      · rintro ⟨j, hj, hPj⟩
        rcases Nat.lt_succ_iff_lt_or_eq.mp hj with hlt | heq
        · exact hp.1 ⟨j, hlt, hPj⟩
        · subst heq
          exact absurd hPj hJ
      · intro hne
        exact hp.2 (fun ⟨j, hj, hPj⟩ => hne ⟨j, Nat.lt_succ_of_lt hj, hPj⟩)

/-- The bytes `byte_slice` writes: index `n = b * 16 + i` receives input byte
`i * 16 + b`. -/
theorem byte_slice_writes (input_bytes output_bytes : List Nat) :
    Writes output_bytes (byte_slice input_bytes output_bytes)
      (fun n => ∃ b, b < 16 ∧ ∃ i, i < 16 ∧ n = b * 16 + i)
      (fun n => input_bytes.getD (n % 16 * 16 + n / 16) 0) :=
  forLoop_writes 16 _ (fun b n => ∃ i, i < 16 ∧ n = b * 16 + i) _ (fun b _ t =>
    forLoop_writes 16 _ (fun i n => n = b * 16 + i) _ (fun i hi t =>
      set_writes t (b * 16 + i) (input_bytes.getD (i * 16 + b) 0) _ (by
        have h1 : (b * 16 + i) % 16 = i := by omega
        have h2 : (b * 16 + i) / 16 = b := by omega
        simp only [h1, h2])) t) output_bytes

/-- The bytes `un_byte_slice` writes: index `n = i * 16 + b` receives input byte
`b * 16 + i`. -/
theorem un_byte_slice_writes (input_bytes output_bytes : List Nat) :
    Writes output_bytes (un_byte_slice input_bytes output_bytes)
      (fun n => ∃ b, b < 16 ∧ ∃ i, i < 16 ∧ n = i * 16 + b)
      (fun n => input_bytes.getD (n % 16 * 16 + n / 16) 0) :=
  forLoop_writes 16 _ (fun b n => ∃ i, i < 16 ∧ n = i * 16 + b) _ (fun b hb t =>
    forLoop_writes 16 _ (fun i n => n = i * 16 + b) _ (fun i _ t =>
      set_writes t (i * 16 + b) (input_bytes.getD (b * 16 + i) 0) _ (by
        have h1 : (i * 16 + b) % 16 = b := by omega
        have h2 : (i * 16 + b) / 16 = i := by omega
        simp only [h1, h2])) t) output_bytes

theorem byte_slice_length (input_bytes output_bytes : List Nat) :
    (byte_slice input_bytes output_bytes).length = output_bytes.length :=
  (byte_slice_writes input_bytes output_bytes).1

theorem un_byte_slice_length (input_bytes output_bytes : List Nat) :
    (un_byte_slice input_bytes output_bytes).length = output_bytes.length :=
  (un_byte_slice_writes input_bytes output_bytes).1

/-- Output byte `n < 256` of `byte_slice` is input byte `(n % 16) * 16 + n / 16`. -/
theorem byte_slice_getD (input_bytes output_bytes : List Nat) (n : Nat) (hn : n < 256)
    (hlen : 256 ≤ output_bytes.length) :
    (byte_slice input_bytes output_bytes).getD n 0 =
      input_bytes.getD (n % 16 * 16 + n / 16) 0 :=
  ((byte_slice_writes input_bytes output_bytes).2 n (by omega)).1
    ⟨n / 16, by omega, n % 16, by omega, by omega⟩

/-- Output byte `n < 256` of `un_byte_slice` is input byte `(n % 16) * 16 + n / 16`. -/
theorem un_byte_slice_getD (input_bytes output_bytes : List Nat) (n : Nat) (hn : n < 256)
    (hlen : 256 ≤ output_bytes.length) :
    (un_byte_slice input_bytes output_bytes).getD n 0 =
      input_bytes.getD (n % 16 * 16 + n / 16) 0 :=
  ((un_byte_slice_writes input_bytes output_bytes).2 n (by omega)).1
    ⟨n % 16, by omega, n / 16, by omega, by omega⟩

/-! ## The 16-lane table lookup -/

theorem vld1q_u8_x4_getD (table : List Nat) (offset i : Nat) (hi : i < 64) :
    (vld1q_u8_x4 table offset).getD i 0 = table.getD (offset + i) 0 := by
  rw [vld1q_u8_x4, List.getD_eq_getElem?_getD, List.getD_eq_getElem?_getD,
    List.getElem?_take_of_lt hi, List.getElem?_drop]

/-- XOR with `0x40`, `0x80`, `0xC0` sends an index of the first quadrant out of `0..63`. -/
theorem quadrant_xor_0 : ∀ v, v < 64 →
    64 ≤ v ^^^ 0x40 ∧ 64 ≤ v ^^^ 0x80 ∧ 64 ≤ v ^^^ 0xC0 := by
  decide!

/-- XOR with `0x40` brings an index of the second quadrant into `0..63`; the others do not. -/
theorem quadrant_xor_1 : ∀ v, v < 64 →
    (v + 64) ^^^ 0x40 = v ∧ 64 ≤ (v + 64) ^^^ 0x80 ∧ 64 ≤ (v + 64) ^^^ 0xC0 := by
  decide!

/-- XOR with `0x80` brings an index of the third quadrant into `0..63`; the others do not. -/
theorem quadrant_xor_2 : ∀ v, v < 64 →
    64 ≤ (v + 128) ^^^ 0x40 ∧ (v + 128) ^^^ 0x80 = v ∧ 64 ≤ (v + 128) ^^^ 0xC0 := by
  decide!

/-- XOR with `0xC0` brings an index of the fourth quadrant into `0..63`; the others do not. -/
theorem quadrant_xor_3 : ∀ v, v < 64 →
    64 ≤ (v + 192) ^^^ 0x40 ∧ 64 ≤ (v + 192) ^^^ 0x80 ∧ (v + 192) ^^^ 0xC0 = v := by
  decide!

/-- Lane `l` of `lookup_16x8b(table, x)` is `table[x[l]]`, for a byte index `x[l]`. -/
theorem lookup_16x8b_lane (table : List Nat) (x : M128) (l : Fin 16) (hx : x l < 256) :
    lookup_16x8b table x l = table.getD (x l) 0 := by
  simp only [lookup_16x8b, veorq_u8, vqtbl4q_u8, vdupq_n_u8]
  generalize x l = v at hx
  by_cases h0 : v < 64
  · obtain ⟨h1, h2, h3⟩ := quadrant_xor_0 v h0
    rw [if_pos h0, if_neg (by omega), if_neg (by omega), if_neg (by omega),
      vld1q_u8_x4_getD _ _ _ h0]
    simp
  · by_cases h1 : v < 128
    · obtain ⟨w, rfl⟩ : ∃ w, v = w + 64 := ⟨v - 64, by omega⟩
      obtain ⟨e1, h2, h3⟩ := quadrant_xor_1 w (by omega)
      rw [if_neg h0, if_pos (by omega), if_neg (by omega), if_neg (by omega), e1,
        vld1q_u8_x4_getD _ _ _ (by omega)]
      simp only [Nat.zero_xor, Nat.xor_zero]
      congr 1
      omega
    · by_cases h2 : v < 192
      · obtain ⟨w, rfl⟩ : ∃ w, v = w + 128 := ⟨v - 128, by omega⟩
        obtain ⟨h1', e2, h3⟩ := quadrant_xor_2 w (by omega)
        rw [if_neg h0, if_neg (by omega), if_pos (by omega), if_neg (by omega), e2,
          vld1q_u8_x4_getD _ _ _ (by omega)]
        simp only [Nat.zero_xor, Nat.xor_zero]
        congr 1
        omega
      · obtain ⟨w, rfl⟩ : ∃ w, v = w + 192 := ⟨v - 192, by omega⟩
        obtain ⟨h1', h2', e3⟩ := quadrant_xor_3 w (by omega)
        rw [if_neg h0, if_neg (by omega), if_neg (by omega), if_pos (by omega), e3,
          vld1q_u8_x4_getD _ _ _ (by omega)]
        simp only [Nat.zero_xor, Nat.xor_zero]
        congr 1
        omega

/-- The exponent the packed multiplier looks up: the wrapped sum, plus one where the 8-bit
addition wrapped. -/
theorem logc_index (la lb : Nat) (hla : la ≤ 254) (hlb : lb ≤ 254) :
    ((la + lb) % 256 + 256 - (if la > (la + lb) % 256 then 0xFF else 0) % 256) % 256 =
      if la + lb = 255 then 255 else if la + lb > 254 then la + lb - 255 else la + lb := by
  split_ifs <;> omega

/-- The final masking of the packed multiplier: the byte `c` where both inputs are nonzero,
`0` elsewhere. -/
theorem mask_lane (c x y : Nat) (hc : c < 256) :
    c &&& (((if x = 0 then 0xFF else 0) ||| (if y = 0 then 0xFF else 0)) ^^^ 0xff) =
      if x ≠ 0 ∧ y ≠ 0 then c else 0 := by
  have h255 : c &&& 255 = c := Nat.and_pow_two_sub_one_of_lt_two_pow (n := 8) hc
  by_cases hx : x = 0
  · by_cases hy : y = 0
    · simp [hx, hy]
    · simp [hx, hy]
  · by_cases hy : y = 0
    · simp [hx, hy]
    · simp [hx, hy, h255]

/-- Lane `l` of `packed_tower_16x8b_multiply(a, b)` on the packed tables. -/
theorem packed_lane (a b : M128) (l : Fin 16) (ha : a l < 256) (hb : b l < 256) :
    packed_tower_16x8b_multiply a b l = mulPacked (a l) (b l) := by
  have hla := log_le (a l) ha
  have hlb := log_le (b l) hb
  have hloga : lookup_16x8b LOG_TABLE a l = packedGet LOG_PACKED (a l) := by
    rw [lookup_16x8b_lane _ _ _ ha, LOG_TABLE_getD]
  have hlogb : lookup_16x8b LOG_TABLE b l = packedGet LOG_PACKED (b l) := by
    rw [lookup_16x8b_lane _ _ _ hb, LOG_TABLE_getD]
  simp only [packed_tower_16x8b_multiply, vandq_u8, veorq_u8, vorrq_u8, vceqzq_u8, all_ffs]
  rw [lookup_16x8b_lane EXP_TABLE _ l (Nat.mod_lt _ (by decide)), EXP_TABLE_getD]
  simp only [vsubq_u8, vcgtq_u8, vaddq_u8, hloga, hlogb]
  rw [logc_index _ _ hla hlb, mask_lane _ _ _ (packedGet_lt _ _)]
  unfold mulPacked
  by_cases h255 : packedGet LOG_PACKED (a l) + packedGet LOG_PACKED (b l) = 255
  · have e2 : packedGet LOG_PACKED (a l) + packedGet LOG_PACKED (b l) - 255 = 0 := by omega
    rw [if_pos h255, if_pos (show packedGet LOG_PACKED (a l) + packedGet LOG_PACKED (b l) > 254
      by omega), e2, exp_255, exp_zero]
  · rw [if_neg h255]

/-! ## Claims on the bit transpose engine -/

/-- C1, as stated, fails at stride 2: on the 254-word buffer that is zero except for word 2
(a well-formed buffer, large enough for the stride), `bs_transpose` followed by
`bs_transpose_rev` with the same stride does not give the buffer back. -/
theorem bs_transpose_roundtrip_stride_two_fails :
    (126 * 2 + 2 ≤ strideTwoBuffer.length ∧ ∀ w ∈ strideTwoBuffer, w < 2 ^ 64) ∧
      bs_transpose_rev (bs_transpose strideTwoBuffer 2) 2 ≠ strideTwoBuffer := by
  refine ⟨⟨by decide!, by decide!⟩, ?_⟩
  intro h
  have h2 := congrArg (fun l => l.getD 2 0) h
  simp only [bs_transpose_rev_transpose_getD strideTwoBuffer 2 2 (by decide)] at h2
  revert h2
  decide

/-- C1 (amended): at stride 1, for every buffer of at least 128 words of 64 bits,
`bs_transpose` followed by `bs_transpose_rev` returns the buffer unchanged. -/
theorem bs_transpose_rev_transpose_stride_one (B : List Nat) (hlen : 128 ≤ B.length)
    (hw : ∀ w ∈ B, w < 2 ^ 64) :
    bs_transpose_rev (bs_transpose B 1) 1 = B := by
  have hl : (bs_transpose_rev (bs_transpose B 1) 1).length = B.length := by
    rw [bs_transpose_rev_length _ _ (by rw [bs_transpose_length _ _ hlen]; exact hlen),
      bs_transpose_length _ _ hlen]
  apply list_ext_getD _ _ hl
  intro n hn
  rw [hl] at hn
  by_cases h128 : n < 128
  · rw [bs_transpose_rev_transpose_getD B 1 n h128]
    have h1 : (n / 2 * 2 * 1 + n % 2) % 2 ^ 64 = n := by omega
    rw [h1]
    apply Nat.mod_eq_of_lt
    apply hw
    rw [List.getD_eq_getElem?_getD, List.getElem?_eq_getElem hn]
    exact List.getElem_mem hn
  · rw [bs_transpose_rev_getD_ge _ _ _ (by omega), bs_transpose_getD_ge _ _ _ (by omega)]

/-- Witness of `bs_transpose_rev_transpose_stride_one` on the block whose word `n` is `n`. -/
theorem bs_transpose_rev_transpose_stride_one_witness :
    (128 ≤ (List.range 128).length ∧ ∀ w ∈ List.range 128, w < 2 ^ 64) ∧
      bs_transpose_rev (bs_transpose (List.range 128) 1) 1 = List.range 128 :=
  ⟨⟨Nat.le_of_eq (List.length_range 128).symm,
      fun _ hw => Nat.lt_trans (List.mem_range.mp hw) (by decide)⟩,
    bs_transpose_rev_transpose_stride_one (List.range 128)
      (Nat.le_of_eq (List.length_range 128).symm)
      (fun _ hw => Nat.lt_trans (List.mem_range.mp hw) (by decide))⟩

/-- C2: on an all-zero 128-word destination and an input buffer that holds every word the
stride reaches, `bs_transpose_dst` yields 128 words of 64 bits in which, for all `k < 64`,
`i < 2`, `j < 64`, bit `k` of word `(i << 6) + j` is bit `j` of `blocks[k * 2 * s + i]`. -/
theorem bs_transpose_dst_bits (blocks : List Nat) (s : Nat)
    (hlen : 126 * s + 2 ≤ blocks.length) (hmem : blocks.length ≤ 2 ^ 64) :
    (bs_transpose_dst (List.replicate 128 0) blocks s).length = 128 ∧
    (∀ n, n < 128 → (bs_transpose_dst (List.replicate 128 0) blocks s).getD n 0 < 2 ^ 64) ∧
    ∀ k i j, k < 64 → i < 2 → j < 64 →
      ((bs_transpose_dst (List.replicate 128 0) blocks s).getD ((i <<< 6) + j) 0).testBit k =
        (blocks.getD (k * 2 * s + i) 0).testBit j := by
  refine ⟨by rw [bs_transpose_dst_length, List.length_replicate], ?_, ?_⟩
  · intro n hn
    apply Nat.lt_pow_two_of_testBit
    intro m hm
    cases hb : ((bs_transpose_dst (List.replicate 128 0) blocks s).getD n 0).testBit m with
    | false => rfl
    | true =>
      have := ((bs_transpose_dst_zero_testBit blocks s n m hn).mp hb).1
      omega
  · intro k i j hk hi hj
    have hmul : k * 2 * s ≤ 126 * s := Nat.mul_le_mul_right s (by omega)
    have hidx : (k * 2 * s + i) % 2 ^ 64 = k * 2 * s + i := Nat.mod_eq_of_lt (by omega)
    have h1 : (i <<< 6 + j) / 64 = i := by
      rw [Nat.shiftLeft_eq]
      omega
    have h2 : (i <<< 6 + j) % 64 = j := by
      rw [Nat.shiftLeft_eq]
      omega
    have hn : i <<< 6 + j < 128 := by
      rw [Nat.shiftLeft_eq]
      omega
    rw [Bool.eq_iff_iff, bs_transpose_dst_zero_testBit blocks s _ k hn, h1, h2, hidx]
    exact ⟨fun h => h.2, fun h => ⟨hk, h⟩⟩

/-- Witness of `bs_transpose_dst_bits` on the block whose word `n` is `n`, stride 1. -/
theorem bs_transpose_dst_bits_witness :
    (126 * 1 + 2 ≤ (List.range 128).length ∧ (List.range 128).length ≤ 2 ^ 64) ∧
    ((bs_transpose_dst (List.replicate 128 0) (List.range 128) 1).length = 128 ∧
    (∀ n, n < 128 →
      (bs_transpose_dst (List.replicate 128 0) (List.range 128) 1).getD n 0 < 2 ^ 64) ∧
    ∀ k i j, k < 64 → i < 2 → j < 64 →
      ((bs_transpose_dst (List.replicate 128 0) (List.range 128) 1).getD
          ((i <<< 6) + j) 0).testBit k =
        ((List.range 128).getD (k * 2 * 1 + i) 0).testBit j) :=
  ⟨⟨Nat.le_of_eq (List.length_range 128).symm,
      Nat.le_trans (Nat.le_of_eq (List.length_range 128)) (by decide)⟩,
    bs_transpose_dst_bits (List.range 128) 1 (Nat.le_of_eq (List.length_range 128).symm)
      (Nat.le_trans (Nat.le_of_eq (List.length_range 128)) (by decide))⟩

/-! ## Claims on the packed and scalar multipliers and on byte slicing -/

/-- C3: for 16-lane inputs `a`, `b` of bytes, every lane of
`packed_tower_16x8b_multiply(a, b)` is `multiply_8b_using_log_table` of the two lanes with
`LOG_TABLE` and `EXP_TABLE`; in particular, broadcasting two bytes `x`, `y` into all lanes
yields `multiply(x, y)` in all lanes. -/
theorem packed_tower_16x8b_multiply_eq_scalar (a b : M128) (ha : ∀ l, a l < 256)
    (hb : ∀ l, b l < 256) (x y : Nat) (hx : x < 256) (hy : y < 256) :
    (∀ l, packed_tower_16x8b_multiply a b l =
      multiply_8b_using_log_table (a l) (b l) LOG_TABLE EXP_TABLE) ∧
    (∀ l, packed_tower_16x8b_multiply (vdupq_n_u8 x) (vdupq_n_u8 y) l =
      multiply_8b_using_log_table x y LOG_TABLE EXP_TABLE) := by
  constructor
  · intro l
    rw [packed_lane a b l (ha l) (hb l), multiply_eq_mulPacked]
  · intro l
    rw [packed_lane (vdupq_n_u8 x) (vdupq_n_u8 y) l hx hy, multiply_eq_mulPacked]
    rfl

/-- Witness of `packed_tower_16x8b_multiply_eq_scalar`: lanes `0..15` times `0x13`, and the
broadcast pair `0xFF`, `0x02`. -/
theorem packed_tower_16x8b_multiply_eq_scalar_witness :
    ((∀ l : Fin 16, (fun l : Fin 16 => l.val) l < 256) ∧
      (∀ l : Fin 16, vdupq_n_u8 0x13 l < 256) ∧ 0xFF < 256 ∧ 0x02 < 256) ∧
    ((∀ l, packed_tower_16x8b_multiply (fun l : Fin 16 => l.val) (vdupq_n_u8 0x13) l =
      multiply_8b_using_log_table ((fun l : Fin 16 => l.val) l) (vdupq_n_u8 0x13 l)
        LOG_TABLE EXP_TABLE) ∧
    (∀ l, packed_tower_16x8b_multiply (vdupq_n_u8 0xFF) (vdupq_n_u8 0x02) l =
      multiply_8b_using_log_table 0xFF 0x02 LOG_TABLE EXP_TABLE)) :=
  ⟨⟨fun l => Nat.lt_trans l.isLt (by decide), fun _ => show (0x13 : Nat) < 256 by decide,
      by decide, by decide⟩,
    packed_tower_16x8b_multiply_eq_scalar (fun l : Fin 16 => l.val) (vdupq_n_u8 0x13)
      (fun l => Nat.lt_trans l.isLt (by decide)) (fun _ => show (0x13 : Nat) < 256 by decide)
      0xFF 0x02 (by decide) (by decide)⟩

/-- C4: with a log table whose entries are exponents in `0..254`,
`multiply_8b_using_log_table` returns 0 if `lhs == 0` or `rhs == 0`, and otherwise
`exp_table[(log_table[lhs] + log_table[rhs]) mod 255]`. -/
theorem multiply_8b_using_log_table_mod_255 (lhs rhs : Nat) (log_table exp_table : List Nat)
    (hlog : ∀ e ∈ log_table, e ≤ 254) :
    multiply_8b_using_log_table lhs rhs log_table exp_table =
      if lhs = 0 ∨ rhs = 0 then 0
      else exp_table.getD ((log_table.getD lhs 0 + log_table.getD rhs 0) % 255) 0 := by
  have hget : ∀ x, log_table.getD x 0 ≤ 254 := by
    intro x
    rw [List.getD_eq_getElem?_getD]
    cases hx : log_table[x]? with
    | none => simp
    | some e => exact hlog e (List.getElem?_mem hx)
  have h1 := hget lhs
  have h2 := hget rhs
  unfold multiply_8b_using_log_table
  by_cases h : lhs = 0 ∨ rhs = 0
  · rw [if_pos h, if_neg (by
      rintro ⟨hl, hr⟩
      exact h.elim hl hr)]
  · rw [if_neg h, if_pos ⟨fun hl => h (Or.inl hl), fun hr => h (Or.inr hr)⟩]
    dsimp only
    congr 1
    split <;> omega

/-- Witness of `multiply_8b_using_log_table_mod_255` on the supplied tables. -/
theorem multiply_8b_using_log_table_mod_255_witness :
    (∀ e ∈ LOG_TABLE, e ≤ 254) ∧
    multiply_8b_using_log_table 0x03 0x07 LOG_TABLE EXP_TABLE =
      if 0x03 = 0 ∨ 0x07 = 0 then 0
      else EXP_TABLE.getD ((LOG_TABLE.getD 0x03 0 + LOG_TABLE.getD 0x07 0) % 255) 0 :=
  ⟨by decide!, multiply_8b_using_log_table_mod_255 0x03 0x07 LOG_TABLE EXP_TABLE (by decide!)⟩

/-- C5: for every batch `X` of 256 bytes (sixteen 128-bit elements), `un_byte_slice` of the
output of `byte_slice(X)` is `X`; the sliced buffer holds the 256 bytes `byte_slice`
writes. -/
theorem un_byte_slice_byte_slice (X sliced out : List Nat) (hX : X.length = 256)
    (hsliced : 256 ≤ sliced.length) (hout : out.length = 256) :
    un_byte_slice (byte_slice X sliced) out = X := by
  apply list_ext_getD
  · rw [un_byte_slice_length, hout, hX]
  · intro n hn
    rw [un_byte_slice_length, hout] at hn
    rw [un_byte_slice_getD _ _ n hn (by omega),
      byte_slice_getD _ _ _ (by omega) hsliced]
    congr 1
    omega

/-- Witness of `un_byte_slice_byte_slice` on the batch whose byte `n` is `n`. -/
theorem un_byte_slice_byte_slice_witness :
    ((List.range 256).length = 256 ∧ 256 ≤ (List.replicate 256 0).length ∧
      (List.replicate 256 0).length = 256) ∧
    un_byte_slice (byte_slice (List.range 256) (List.replicate 256 0))
      (List.replicate 256 0) = List.range 256 :=
  ⟨⟨List.length_range 256, Nat.le_of_eq (List.length_replicate 256 0).symm,
      List.length_replicate 256 0⟩,
    un_byte_slice_byte_slice (List.range 256) (List.replicate 256 0) (List.replicate 256 0)
      (List.length_range 256) (Nat.le_of_eq (List.length_replicate 256 0).symm)
      (List.length_replicate 256 0)⟩

/-- C6: for all `b < 16`, `i < 16`, output byte `b * 16 + i` of `byte_slice` is input byte
`i * 16 + b` (row `b` holds byte `b` of element `i` at lane `i`); and on the batch whose
element `i` is the byte `i` repeated, row 0 is `0x00, 0x01, .., 0x0F`. -/
theorem byte_slice_layout (X out : List Nat) (hout : 256 ≤ out.length) :
    (∀ b i, b < 16 → i < 16 →
      (byte_slice X out).getD (b * 16 + i) 0 = X.getD (i * 16 + b) 0) ∧
    (List.range 16).map (fun i => (byte_slice patternBatch out).getD i 0) =
      [0x00, 0x01, 0x02, 0x03, 0x04, 0x05, 0x06, 0x07,
       0x08, 0x09, 0x0A, 0x0B, 0x0C, 0x0D, 0x0E, 0x0F] := by
  constructor
  · intro b i hb hi
    rw [byte_slice_getD _ _ _ (by omega) hout]
    congr 1
    omega
  · have hrow : ∀ i, i < 16 → (byte_slice patternBatch out).getD i 0 = i := by
      intro i hi
      have hp : ∀ i, i < 16 → patternBatch.getD (i % 16 * 16 + i / 16) 0 = i := by decide!
      rw [byte_slice_getD _ _ _ (by omega) hout]
      exact hp i hi
    have hr : List.range 16 = [0, 1, 2, 3, 4, 5, 6, 7, 8, 9, 10, 11, 12, 13, 14, 15] := by
      decide
    rw [hr]
    simp only [List.map_cons, List.map_nil]
    rw [hrow 0 (by decide), hrow 1 (by decide), hrow 2 (by decide), hrow 3 (by decide),
      hrow 4 (by decide), hrow 5 (by decide), hrow 6 (by decide), hrow 7 (by decide),
      hrow 8 (by decide), hrow 9 (by decide), hrow 10 (by decide), hrow 11 (by decide),
      hrow 12 (by decide), hrow 13 (by decide), hrow 14 (by decide), hrow 15 (by decide)]

/-- Witness of `byte_slice_layout` on the batch whose byte `n` is `n`. -/
theorem byte_slice_layout_witness :
    256 ≤ (List.replicate 256 0).length ∧
    ((∀ b i, b < 16 → i < 16 →
      (byte_slice (List.range 256) (List.replicate 256 0)).getD (b * 16 + i) 0 =
        (List.range 256).getD (i * 16 + b) 0) ∧
    (List.range 16).map
        (fun i => (byte_slice patternBatch (List.replicate 256 0)).getD i 0) =
      [0x00, 0x01, 0x02, 0x03, 0x04, 0x05, 0x06, 0x07,
       0x08, 0x09, 0x0A, 0x0B, 0x0C, 0x0D, 0x0E, 0x0F]) :=
  ⟨Nat.le_of_eq (List.length_replicate 256 0).symm,
    byte_slice_layout (List.range 256) (List.replicate 256 0)
      (Nat.le_of_eq (List.length_replicate 256 0).symm)⟩

/-- C7: `BINARY_TOWER_8B_MUL_ALPHA_MAP[0] == 0`, `BINARY_TOWER_8B_MUL_ALPHA_MAP[1] == 0x10`,
and for every byte `r` the table lookup `multiply_constant_8b_using_table` agrees with
`multiply_8b_using_log_table(r, 0x10, LOG_TABLE, EXP_TABLE)`. -/
theorem multiply_constant_8b_eq_multiply_alpha (r : Nat) (hr : r < 256) :
    BINARY_TOWER_8B_MUL_ALPHA_MAP.getD 0 0 = 0 ∧
    BINARY_TOWER_8B_MUL_ALPHA_MAP.getD 1 0 = 0x10 ∧
    multiply_constant_8b_using_table r BINARY_TOWER_8B_MUL_ALPHA_MAP =
      multiply_8b_using_log_table r 0x10 LOG_TABLE EXP_TABLE := by
  have hall : ∀ r, r < 256 → BINARY_TOWER_8B_MUL_ALPHA_MAP.getD r 0 = mulPacked r 0x10 := by
    decide!
  refine ⟨by decide, by decide, ?_⟩
  rw [multiply_eq_mulPacked]
  exact hall r hr

/-- Witness of `multiply_constant_8b_eq_multiply_alpha` at the byte `0xFF`. -/
theorem multiply_constant_8b_eq_multiply_alpha_witness :
    0xFF < 256 ∧
    (BINARY_TOWER_8B_MUL_ALPHA_MAP.getD 0 0 = 0 ∧
    BINARY_TOWER_8B_MUL_ALPHA_MAP.getD 1 0 = 0x10 ∧
    multiply_constant_8b_using_table 0xFF BINARY_TOWER_8B_MUL_ALPHA_MAP =
      multiply_8b_using_log_table 0xFF 0x10 LOG_TABLE EXP_TABLE) :=
  ⟨by decide, multiply_constant_8b_eq_multiply_alpha 0xFF (by decide)⟩

/-- C8: with the supplied `LOG_TABLE` and `EXP_TABLE`, `multiply_8b_using_log_table`
distributes over XOR: `multiply(a, b ^ c) == multiply(a, b) ^ multiply(a, c)` for all bytes
`a`, `b`, `c`. -/
theorem multiply_8b_using_log_table_xor (a b c : Nat) (ha : a < 256) (hb : b < 256)
    (hc : c < 256) :
    multiply_8b_using_log_table a (b ^^^ c) LOG_TABLE EXP_TABLE =
      multiply_8b_using_log_table a b LOG_TABLE EXP_TABLE ^^^
        multiply_8b_using_log_table a c LOG_TABLE EXP_TABLE := by
  rw [multiply_eq_mulPacked, multiply_eq_mulPacked, multiply_eq_mulPacked]
  exact mulPacked_xor a b c ha hb hc

/-- Witness of `multiply_8b_using_log_table_xor` at `a = 0x53`, `b = 0xCA`, `c = 0x0F`. -/
theorem multiply_8b_using_log_table_xor_witness :
    (0x53 < 256 ∧ 0xCA < 256 ∧ 0x0F < 256) ∧
    multiply_8b_using_log_table 0x53 (0xCA ^^^ 0x0F) LOG_TABLE EXP_TABLE =
      multiply_8b_using_log_table 0x53 0xCA LOG_TABLE EXP_TABLE ^^^
        multiply_8b_using_log_table 0x53 0x0F LOG_TABLE EXP_TABLE :=
  ⟨⟨by decide, by decide, by decide⟩,
    multiply_8b_using_log_table_xor 0x53 0xCA 0x0F (by decide) (by decide) (by decide)⟩

/-- C9: with the supplied tables, `multiply_8b_using_log_table(a, 1, ..) == a` for every
byte `a`, and `multiply(1, 1) == EXP_TABLE[0] == 0x01`. -/
theorem multiply_8b_using_log_table_one (a : Nat) (ha : a < 256) :
    multiply_8b_using_log_table a 1 LOG_TABLE EXP_TABLE = a ∧
    multiply_8b_using_log_table 1 1 LOG_TABLE EXP_TABLE = EXP_TABLE.getD 0 0 ∧
    EXP_TABLE.getD 0 0 = 0x01 := by
  have hall : ∀ a, a < 256 → mulPacked a 1 = a := by decide!
  have h0 : EXP_TABLE.getD 0 0 = 0x01 := by decide
  refine ⟨?_, ?_, h0⟩
  · rw [multiply_eq_mulPacked]
    exact hall a ha
  · rw [multiply_eq_mulPacked, h0]
    exact hall 1 (by decide)

/-- Witness of `multiply_8b_using_log_table_one` at the byte `0xA7`. -/
theorem multiply_8b_using_log_table_one_witness :
    0xA7 < 256 ∧
    (multiply_8b_using_log_table 0xA7 1 LOG_TABLE EXP_TABLE = 0xA7 ∧
    multiply_8b_using_log_table 1 1 LOG_TABLE EXP_TABLE = EXP_TABLE.getD 0 0 ∧
    EXP_TABLE.getD 0 0 = 0x01) :=
  ⟨by decide, multiply_8b_using_log_table_one 0xA7 (by decide)⟩

/-- C10: `multiply_8b_using_log_table` is commutative, for all operands and every pair of
tables: `multiply(a, b) == multiply(b, a)`. -/
theorem multiply_8b_using_log_table_comm (a b : Nat) (log_table exp_table : List Nat) :
    multiply_8b_using_log_table a b log_table exp_table =
      multiply_8b_using_log_table b a log_table exp_table := by
  unfold multiply_8b_using_log_table
  rw [Nat.add_comm (log_table.getD a 0) (log_table.getD b 0)]
  by_cases h : a ≠ 0 ∧ b ≠ 0
  · rw [if_pos h, if_pos ⟨h.2, h.1⟩]
  · rw [if_neg h, if_neg (fun h' => h ⟨h'.2, h'.1⟩)]

/-! ## The loop branches of the transposes -/

theorem forLoop_congr {σ : Type} (n : Nat) (f g : Nat → σ → σ)
    (h : ∀ i, i < n → ∀ st, f i st = g i st) (st : σ) :
    forLoop n f st = forLoop n g st := by
  induction n with
  | zero => rfl
  | succ n ih =>
    rw [forLoop_succ, forLoop_succ, ih (fun i hi => h i (Nat.lt_succ_of_lt hi)),
      h n (Nat.lt_succ_self n)]

/-- The unrolled body and the `j` loop of `bs_transpose_dst` give the same destination. -/
theorem bs_transpose_dst_eq_loop (transpose blocks : List Nat) (s : Nat) :
    bs_transpose_dst transpose blocks s = bs_transpose_dst_loop transpose blocks s := by
  unfold bs_transpose_dst bs_transpose_dst_loop
  apply forLoop_congr
  intro k _ t
  apply forLoop_congr
  intro i _ t
  exact bs_transpose_dst_unrolled_eq_forLoop t _ _ _

/-- Which bits the `k` loop of the loop branch of `bs_transpose_rev` ORs into its scratch
block. -/
theorem bs_transpose_rev_loop_scratch_orAcc (blocks : List Nat) (s : Nat) :
    OrAcc (List.replicate BLOCK_SIZE 0) (bs_transpose_rev_loop_scratch blocks s)
      (fun n m => ∃ k, k < BLOCK_SIZE ∧ ∃ j, j < WORD_SIZE ∧
        ((j * WORDS_PER_BLOCK * s + k / WORD_SIZE) % WORD_MOD = n ∧
        (blocks.getD k 0).testBit j = true ∧
        (ONE <<< (k % WORD_SIZE)).testBit m = true)) :=
  forLoop_orAcc BLOCK_SIZE _ _ (fun k _ t =>
    forLoop_orAcc WORD_SIZE
      (fun j t => or_bit t ((j * WORDS_PER_BLOCK * s + k / WORD_SIZE) % WORD_MOD)
        (blocks.getD k 0) j (ONE <<< (k % WORD_SIZE)))
      (fun j n m => (j * WORDS_PER_BLOCK * s + k / WORD_SIZE) % WORD_MOD = n ∧
        (blocks.getD k 0).testBit j = true ∧ (ONE <<< (k % WORD_SIZE)).testBit m = true)
      (fun j _ t => or_bit_orAcc ((j * WORDS_PER_BLOCK * s + k / WORD_SIZE) % WORD_MOD)
        (blocks.getD k 0) j (ONE <<< (k % WORD_SIZE)) t) t) _

theorem bs_transpose_rev_loop_scratch_length (blocks : List Nat) (s : Nat) :
    (bs_transpose_rev_loop_scratch blocks s).length = 128 := by
  rw [(bs_transpose_rev_loop_scratch_orAcc blocks s).1, List.length_replicate]

/-- Bit `m` of word `n` of the scratch block of the loop branch of `bs_transpose_rev`. -/
theorem bs_transpose_rev_loop_scratch_testBit (blocks : List Nat) (s n m : Nat)
    (hn : n < 128) :
    ((bs_transpose_rev_loop_scratch blocks s).getD n 0).testBit m = true ↔
      ∃ k, k < 128 ∧ ∃ j, j < 64 ∧ (j * 2 * s + k / 64) % 2 ^ 64 = n ∧
        (blocks.getD k 0).testBit j = true ∧ k % 64 = m := by
  rw [(bs_transpose_rev_loop_scratch_orAcc blocks s).2 n m
      (by rw [List.length_replicate]; exact hn), replicate_zero_getD_testBit]
  simp only [one_shiftLeft_testBit]
  simp only [show WORDS_PER_BLOCK = 2 from rfl, show WORD_SIZE = 64 from rfl,
    show BLOCK_SIZE = 128 from rfl, show WORD_MOD = 2 ^ 64 from rfl]
  constructor
  · rintro (h | h)
    · exact absurd h Bool.false_ne_true
    · exact h
  · intro h
    exact Or.inr h

theorem bs_transpose_rev_loop_getD_lt (B : List Nat) (s n : Nat) (hn : n < 128) :
    (bs_transpose_rev_loop B s).getD n 0 = (bs_transpose_rev_loop_scratch B s).getD n 0 := by
  unfold bs_transpose_rev_loop
  exact memmove_getD_lt _ _ _ _ (by rw [bs_transpose_rev_loop_scratch_length]) hn

theorem bs_transpose_rev_loop_scratch_stride_one (B : List Nat) :
    bs_transpose_rev_loop_scratch B 1 = bs_transpose_rev_scratch B := by
  unfold bs_transpose_rev_loop_scratch bs_transpose_rev_scratch
  apply forLoop_congr
  intro k hk t
  dsimp only
  rw [bs_transpose_rev_unrolled_eq_forLoop]
  apply forLoop_congr
  intro j hj t
  have hidx : (j * WORDS_PER_BLOCK * 1 + k / WORD_SIZE) % WORD_MOD =
      j * WORDS_PER_BLOCK + k / WORD_SIZE := by
    simp only [show WORDS_PER_BLOCK = 2 from rfl, show WORD_SIZE = 64 from rfl,
      show WORD_MOD = 2 ^ 64 from rfl]
    simp only [show WORD_SIZE = 64 from rfl, show BLOCK_SIZE = 128 from rfl] at hj hk
    omega
  rw [hidx]
  rfl

/-- At stride 1 the loop branch of `bs_transpose_rev` agrees with the unrolled one. -/
theorem bs_transpose_rev_loop_stride_one (B : List Nat) :
    bs_transpose_rev_loop B 1 = bs_transpose_rev B 1 := by
  unfold bs_transpose_rev_loop bs_transpose_rev
  rw [bs_transpose_rev_loop_scratch_stride_one]

theorem bitOneBlock_getD (k : Nat) : bitOneBlock.getD k 0 = if k = 0 then 2 else 0 := by
  unfold bitOneBlock
  rw [List.getD_eq_getElem?_getD, List.getElem?_set]
  by_cases h : k = 0
  · subst h
    simp
  · rw [if_neg (fun h' => h h'.symm), if_neg h, List.getElem?_replicate]
    split <;> rfl

/-! ## Store trace of `byte_slice` -/

/-- A loop over a pair of states that are updated independently is a pair of loops. -/
theorem forLoop_prod {α β : Type} (n : Nat) (body : Nat → α × β → α × β)
    (f : Nat → α → α) (g : Nat → β → β)
    (h : ∀ i x y, body i (x, y) = (f i x, g i y)) (x : α) (y : β) :
    forLoop n body (x, y) = (forLoop n f x, forLoop n g y) := by
  induction n with
  | zero => rfl
  | succ n ih => rw [forLoop_succ, ih, h, forLoop_succ, forLoop_succ]

/-- The traced `byte_slice` is `byte_slice` paired with the trace of the store indices. -/
theorem byte_slice_traced_eq (input_bytes output_bytes : List Nat) :
    byte_slice_traced input_bytes output_bytes =
      (byte_slice input_bytes output_bytes,
        forLoop BYTES_IN_128BIT (fun byte_index tr =>
          forLoop NUM_INPUTS (fun i tr => tr ++ [byte_index * NUM_INPUTS + i]) tr) []) := by
  unfold byte_slice_traced byte_slice
  apply forLoop_prod
  intro b x y
  exact forLoop_prod NUM_INPUTS
    (fun i st => (st.1.set (b * NUM_INPUTS + i) (input_bytes.getD (i * BYTES_IN_128BIT + b) 0),
      st.2 ++ [b * NUM_INPUTS + i]))
    (fun i out => out.set (b * NUM_INPUTS + i) (input_bytes.getD (i * BYTES_IN_128BIT + b) 0))
    (fun i tr => tr ++ [b * NUM_INPUTS + i]) (fun _ _ _ => rfl) x y

/-- The stores of `byte_slice` go to the byte indices `0, 1, .., 255`, in this order. -/
theorem byte_slice_trace_eq_range :
    forLoop BYTES_IN_128BIT (fun byte_index tr =>
      forLoop NUM_INPUTS (fun i tr => tr ++ [byte_index * NUM_INPUTS + i]) tr) [] =
        List.range 256 := by
  decide!

/-! ## The four quadrant lookups of `lookup_16x8b` -/

/-- XOR with `64 * q` brings exactly the indices of quadrant `q` into `0..63`, at their
offset in the quadrant. -/
theorem quadrant_xor_iff : ∀ q, q < 4 → ∀ v, v < 256 →
    ((v ^^^ (64 * q) < 64 ↔ v / 64 = q) ∧ (v / 64 = q → 64 * q + (v ^^^ (64 * q)) = v)) := by
  decide!

/-- Lane `l` of the 64-entry lookup of quadrant `q`: `T[x[l]]` if `x[l]` lies in the
quadrant, else 0. -/
theorem quadrant_lookup_lane (T : List Nat) (x : M128) (l : Fin 16) (q : Nat) (hq : q < 4)
    (hx : x l < 256) :
    vqtbl4q_u8 (vld1q_u8_x4 T (64 * q)) (veorq_u8 x (vdupq_n_u8 (64 * q))) l =
      if x l / 64 = q then T.getD (x l) 0 else 0 := by
  obtain ⟨hiff, hval⟩ := quadrant_xor_iff q hq (x l) hx
  simp only [vqtbl4q_u8, veorq_u8, vdupq_n_u8]
  by_cases h : x l / 64 = q
  · rw [if_pos (hiff.mpr h), if_pos h, vld1q_u8_x4_getD _ _ _ (hiff.mpr h), hval h]
  · rw [if_neg (fun h' => h (hiff.mp h')), if_neg h]

/-! ## Claims on the scalar multiplier, the lane lookup and the in-place transpose -/

/-- C11: zero is absorbing for `multiply_8b_using_log_table`, for every operand and every
pair of tables: `multiply(a, 0) == 0` and `multiply(0, a) == 0`. -/
theorem multiply_8b_using_log_table_zero (a : Nat) (log_table exp_table : List Nat) :
    multiply_8b_using_log_table a 0 log_table exp_table = 0 ∧
    multiply_8b_using_log_table 0 a log_table exp_table = 0 := by
  unfold multiply_8b_using_log_table
  constructor
  · rw [if_neg (fun h => h.2 rfl)]
  · rw [if_neg (fun h => h.1 rfl)]

/-- C12: for the supplied tables, `EXP_TABLE[LOG_TABLE[x]] == x` for every nonzero byte
`x`. -/
theorem EXP_TABLE_LOG_TABLE (x : Nat) (hx : x < 256) (hx0 : x ≠ 0) :
    EXP_TABLE.getD (LOG_TABLE.getD x 0) 0 = x := by
  rw [LOG_TABLE_getD, EXP_TABLE_getD]
  exact exp_log x hx hx0

/-- Witness of `EXP_TABLE_LOG_TABLE` at the byte `0xFF`. -/
theorem EXP_TABLE_LOG_TABLE_witness :
    (0xFF < 256 ∧ 0xFF ≠ 0) ∧ EXP_TABLE.getD (LOG_TABLE.getD 0xFF 0) 0 = 0xFF :=
  ⟨⟨by decide, by decide⟩, EXP_TABLE_LOG_TABLE 0xFF (by decide) (by decide)⟩

/-- C13: for every table `T`, every index vector `x` and every lane `l` holding a byte,
lane `l` of `lookup_16x8b(T, x)` is `T[x[l]]`; of the four 64-entry lookups, the one of the
quadrant `x[l] / 64` yields `T[x[l]]` in that lane and the other three yield 0. -/
theorem lookup_16x8b_quadrants (T : List Nat) (x : M128) (l : Fin 16) (hx : x l < 256) :
    lookup_16x8b T x l = T.getD (x l) 0 ∧
    vqtbl4q_u8 (vld1q_u8_x4 T 0) x l = (if x l / 64 = 0 then T.getD (x l) 0 else 0) ∧
    vqtbl4q_u8 (vld1q_u8_x4 T 64) (veorq_u8 x (vdupq_n_u8 0x40)) l =
      (if x l / 64 = 1 then T.getD (x l) 0 else 0) ∧
    vqtbl4q_u8 (vld1q_u8_x4 T 128) (veorq_u8 x (vdupq_n_u8 0x80)) l =
      (if x l / 64 = 2 then T.getD (x l) 0 else 0) ∧
    vqtbl4q_u8 (vld1q_u8_x4 T 192) (veorq_u8 x (vdupq_n_u8 0xC0)) l =
      (if x l / 64 = 3 then T.getD (x l) 0 else 0) := by
  refine ⟨lookup_16x8b_lane T x l hx, ?_, quadrant_lookup_lane T x l 1 (by decide) hx,
    quadrant_lookup_lane T x l 2 (by decide) hx, quadrant_lookup_lane T x l 3 (by decide) hx⟩
  simp only [vqtbl4q_u8]
  by_cases h0 : x l < 64
  · rw [if_pos h0, if_pos (by omega), vld1q_u8_x4_getD _ _ _ h0, Nat.zero_add]
  · rw [if_neg h0, if_neg (by omega)]

/-- Witness of `lookup_16x8b_quadrants`: `EXP_TABLE` indexed by the byte `0x9C` in every
lane, at lane 0. -/
theorem lookup_16x8b_quadrants_witness :
    vdupq_n_u8 0x9C 0 < 256 ∧
    (lookup_16x8b EXP_TABLE (vdupq_n_u8 0x9C) 0 = EXP_TABLE.getD (vdupq_n_u8 0x9C 0) 0 ∧
    vqtbl4q_u8 (vld1q_u8_x4 EXP_TABLE 0) (vdupq_n_u8 0x9C) 0 =
      (if vdupq_n_u8 0x9C 0 / 64 = 0 then EXP_TABLE.getD (vdupq_n_u8 0x9C 0) 0 else 0) ∧
    vqtbl4q_u8 (vld1q_u8_x4 EXP_TABLE 64) (veorq_u8 (vdupq_n_u8 0x9C) (vdupq_n_u8 0x40)) 0 =
      (if vdupq_n_u8 0x9C 0 / 64 = 1 then EXP_TABLE.getD (vdupq_n_u8 0x9C 0) 0 else 0) ∧
    vqtbl4q_u8 (vld1q_u8_x4 EXP_TABLE 128) (veorq_u8 (vdupq_n_u8 0x9C) (vdupq_n_u8 0x80)) 0 =
      (if vdupq_n_u8 0x9C 0 / 64 = 2 then EXP_TABLE.getD (vdupq_n_u8 0x9C 0) 0 else 0) ∧
    vqtbl4q_u8 (vld1q_u8_x4 EXP_TABLE 192) (veorq_u8 (vdupq_n_u8 0x9C) (vdupq_n_u8 0xC0)) 0 =
      (if vdupq_n_u8 0x9C 0 / 64 = 3 then EXP_TABLE.getD (vdupq_n_u8 0x9C 0) 0 else 0)) :=
  ⟨show (0x9C : Nat) < 256 by decide,
    lookup_16x8b_quadrants EXP_TABLE (vdupq_n_u8 0x9C) 0 (show (0x9C : Nat) < 256 by decide)⟩

/-- C14: for every 16-lane input `b` of bytes, lane `l` of
`multiply_constant_128b_using_table(b)` is
`multiply_constant_8b_using_table(b[l], BINARY_TOWER_8B_MUL_ALPHA_MAP)`. -/
theorem multiply_constant_128b_eq_scalar (b : M128) (hb : ∀ l, b l < 256) (l : Fin 16) :
    multiply_constant_128b_using_table b l =
      multiply_constant_8b_using_table (b l) BINARY_TOWER_8B_MUL_ALPHA_MAP := by
  unfold multiply_constant_128b_using_table multiply_constant_8b_using_table
  exact lookup_16x8b_lane _ b l (hb l)

/-- Witness of `multiply_constant_128b_eq_scalar`: lanes `0..15`, at lane 5. -/
theorem multiply_constant_128b_eq_scalar_witness :
    (∀ l : Fin 16, (fun l : Fin 16 => l.val) l < 256) ∧
    multiply_constant_128b_using_table (fun l : Fin 16 => l.val) 5 =
      multiply_constant_8b_using_table ((fun l : Fin 16 => l.val) 5)
        BINARY_TOWER_8B_MUL_ALPHA_MAP :=
  ⟨fun l => Nat.lt_trans l.isLt (by decide),
    multiply_constant_128b_eq_scalar (fun l : Fin 16 => l.val)
      (fun l => Nat.lt_trans l.isLt (by decide)) 5⟩

/-- C15: after the in-place `bs_transpose(blocks, s)` on a buffer of at least 128 words, the
buffer has its length, its first 128 words are the result of `bs_transpose_dst` on an
all-zero 128-word destination with the original `blocks` and `s`, and every word at an
index `>= 128` is unchanged. -/
theorem bs_transpose_in_place (blocks : List Nat) (s : Nat) (hlen : 128 ≤ blocks.length) :
    (bs_transpose blocks s).length = blocks.length ∧
    (bs_transpose blocks s).take 128 = bs_transpose_dst (List.replicate 128 0) blocks s ∧
    ∀ n, 128 ≤ n → (bs_transpose blocks s).getD n 0 = blocks.getD n 0 := by
  have hT : (bs_transpose_dst (List.replicate 128 0) blocks s).length = 128 := by
    rw [bs_transpose_dst_length, List.length_replicate]
  refine ⟨bs_transpose_length blocks s hlen, ?_, fun n hn => bs_transpose_getD_ge blocks s n hn⟩
  show (memmove blocks (bs_transpose_dst (List.replicate 128 0) blocks s) 128).take 128 = _
  unfold memmove
  rw [List.take_of_length_le (Nat.le_of_eq hT), List.take_left' hT]

/-- Witness of `bs_transpose_in_place` on the 254-word buffer `strideTwoBuffer`, stride 2. -/
theorem bs_transpose_in_place_witness :
    128 ≤ strideTwoBuffer.length ∧
    ((bs_transpose strideTwoBuffer 2).length = strideTwoBuffer.length ∧
    (bs_transpose strideTwoBuffer 2).take 128 =
      bs_transpose_dst (List.replicate 128 0) strideTwoBuffer 2 ∧
    ∀ n, 128 ≤ n → (bs_transpose strideTwoBuffer 2).getD n 0 = strideTwoBuffer.getD n 0) :=
  ⟨by decide!, bs_transpose_in_place strideTwoBuffer 2 (by decide!)⟩

/-- C16: `bs_transpose_dst` only OR-accumulates. For every initial 128-word destination `D`,
each word of the result is `D[n] | Z[n]`, with `Z` the result on an all-zero destination;
and the result equals `Z` exactly when every bit set in `D` is also set in `Z`. -/
theorem bs_transpose_dst_or_accumulates (D blocks : List Nat) (s : Nat)
    (hD : D.length = 128) :
    (∀ n, n < 128 →
      (bs_transpose_dst D blocks s).getD n 0 =
        D.getD n 0 ||| (bs_transpose_dst (List.replicate 128 0) blocks s).getD n 0) ∧
    (bs_transpose_dst D blocks s = bs_transpose_dst (List.replicate 128 0) blocks s ↔
      ∀ n m, n < 128 → (D.getD n 0).testBit m = true →
        ((bs_transpose_dst (List.replicate 128 0) blocks s).getD n 0).testBit m = true) := by
  have hor : ∀ n, n < 128 →
      (bs_transpose_dst D blocks s).getD n 0 =
        D.getD n 0 ||| (bs_transpose_dst (List.replicate 128 0) blocks s).getD n 0 := by
    intro n hn
    apply Nat.eq_of_testBit_eq
    intro m
    rw [Bool.eq_iff_iff, Nat.testBit_or, Bool.or_eq_true,
      (bs_transpose_dst_orAcc blocks s D).2 n m (by rw [hD]; exact hn),
      (bs_transpose_dst_orAcc blocks s (List.replicate 128 0)).2 n m
        (by rw [List.length_replicate]; exact hn),
      replicate_zero_getD_testBit]
    constructor
    · rintro (h | h)
      · exact Or.inl h
      · exact Or.inr (Or.inr h)
    · rintro (h | h | h)
      · exact Or.inl h
      · exact absurd h Bool.false_ne_true
      · exact Or.inr h
  refine ⟨hor, ?_, ?_⟩
  · intro heq n m hn hbit
    have h1 := hor n hn
    rw [heq] at h1
    have h2 := congrArg (fun w => w.testBit m) h1
    simp only [Nat.testBit_or, hbit, Bool.true_or] at h2
    exact h2
  · intro hsub
    apply list_ext_getD
    · rw [bs_transpose_dst_length, bs_transpose_dst_length, hD, List.length_replicate]
    · intro n hn
      rw [bs_transpose_dst_length, hD] at hn
      rw [hor n hn]
      apply Nat.eq_of_testBit_eq
      intro m
      rw [Nat.testBit_or]
      cases hb : (D.getD n 0).testBit m with
      | false => rfl
      | true => rw [hsub n m hn hb]; rfl

/-- Witness of `bs_transpose_dst_or_accumulates`: the destination `bitOneBlock`, the input
block whose word `n` is `n`, stride 1. -/
theorem bs_transpose_dst_or_accumulates_witness :
    bitOneBlock.length = 128 ∧
    ((∀ n, n < 128 →
      (bs_transpose_dst bitOneBlock (List.range 128) 1).getD n 0 =
        bitOneBlock.getD n 0 |||
          (bs_transpose_dst (List.replicate 128 0) (List.range 128) 1).getD n 0) ∧
    (bs_transpose_dst bitOneBlock (List.range 128) 1 =
        bs_transpose_dst (List.replicate 128 0) (List.range 128) 1 ↔
      ∀ n m, n < 128 → (bitOneBlock.getD n 0).testBit m = true →
        ((bs_transpose_dst (List.replicate 128 0) (List.range 128) 1).getD n 0).testBit m =
          true)) :=
  ⟨by decide!, bs_transpose_dst_or_accumulates bitOneBlock (List.range 128) 1 (by decide!)⟩

/-! ## Claims on the byte-slice stores, the packed exponent and the unrolled bodies -/

/-- C17 (defect of the code): `byte_slice` does not stay within the 128 bytes of its declared
output `uint64_t output[SLICED_OUTPUTS]`. Whatever the input and the output buffer, its
stores go to the byte indices `0, 1, .., 255`, so to index 128 and beyond. -/
theorem byte_slice_stores_past_declared_output (input_bytes output_bytes : List Nat) :
    (byte_slice_traced input_bytes output_bytes).1 = byte_slice input_bytes output_bytes ∧
    (byte_slice_traced input_bytes output_bytes).2 = List.range 256 ∧
    128 ∈ (byte_slice_traced input_bytes output_bytes).2 ∧
    ¬ ∀ n ∈ (byte_slice_traced input_bytes output_bytes).2,
        n < SLICED_OUTPUTS * 8 := by
  have htr : (byte_slice_traced input_bytes output_bytes).2 = List.range 256 := by
    rw [byte_slice_traced_eq]
    exact byte_slice_trace_eq_range
  have hmem : 128 ∈ (byte_slice_traced input_bytes output_bytes).2 := by
    rw [htr]
    exact List.mem_range.mpr (by decide)
  refine ⟨by rw [byte_slice_traced_eq], htr, hmem, ?_⟩
  intro hall
  exact absurd (hall 128 hmem) (by decide)

/-- C18, as stated, fails: with the byte `0x02` (logarithm 170) in every lane of `a` and
`0x04` (logarithm 204) in every lane of `b`, the 8-bit sum 118 is below the first addend
(the lane wrapped), and the exponent looked up is 119, not the wrapped sum minus 1. -/
theorem packed_logc_not_sum_minus_one :
    vaddq_u8 (lookup_16x8b LOG_TABLE (vdupq_n_u8 0x02))
        (lookup_16x8b LOG_TABLE (vdupq_n_u8 0x04)) 0 <
      lookup_16x8b LOG_TABLE (vdupq_n_u8 0x02) 0 ∧
    packed_tower_16x8b_multiply_logc (vdupq_n_u8 0x02) (vdupq_n_u8 0x04) 0 = 119 ∧
    packed_tower_16x8b_multiply_logc (vdupq_n_u8 0x02) (vdupq_n_u8 0x04) 0 ≠
      (vaddq_u8 (lookup_16x8b LOG_TABLE (vdupq_n_u8 0x02))
        (lookup_16x8b LOG_TABLE (vdupq_n_u8 0x04)) 0 + 256 - 1) % 256 := by
  have hla : lookup_16x8b LOG_TABLE (vdupq_n_u8 0x02) 0 = 170 := by
    rw [lookup_16x8b_lane _ _ _ (show (0x02 : Nat) < 256 by decide), LOG_TABLE_getD]
    decide!
  have hlb : lookup_16x8b LOG_TABLE (vdupq_n_u8 0x04) 0 = 204 := by
    rw [lookup_16x8b_lane _ _ _ (show (0x04 : Nat) < 256 by decide), LOG_TABLE_getD]
    decide!
  simp only [packed_tower_16x8b_multiply_logc, vsubq_u8, vcgtq_u8, vaddq_u8, hla, hlb]
  decide

/-- C18 (amended): the index vector `packed_tower_16x8b_multiply` passes to the `EXP_TABLE`
lookup holds, in every lane where the 8-bit sum of the two logarithms is below the first
addend `loga`, the wrapped sum plus 1 (mod 256), and in every other lane the sum itself. -/
theorem packed_logc_sum_plus_one (a b : M128) (l : Fin 16) :
    packed_tower_16x8b_multiply a b =
      vandq_u8 (lookup_16x8b EXP_TABLE (packed_tower_16x8b_multiply_logc a b))
        (veorq_u8 (vorrq_u8 (vceqzq_u8 a) (vceqzq_u8 b)) all_ffs) ∧
    packed_tower_16x8b_multiply_logc a b l =
      if vaddq_u8 (lookup_16x8b LOG_TABLE a) (lookup_16x8b LOG_TABLE b) l <
          lookup_16x8b LOG_TABLE a l
      then (vaddq_u8 (lookup_16x8b LOG_TABLE a) (lookup_16x8b LOG_TABLE b) l + 1) % 256
      else vaddq_u8 (lookup_16x8b LOG_TABLE a) (lookup_16x8b LOG_TABLE b) l := by
  refine ⟨rfl, ?_⟩
  simp only [packed_tower_16x8b_multiply_logc, vsubq_u8, vcgtq_u8, vaddq_u8]
  split_ifs <;> omega

/-- C19 (defect of the code): the unrolled body of `bs_transpose_rev` does not use the
stride, the loop of the `#ifndef UNROLL_TRANSPOSE` branch does. On the block whose only set
bit is bit 1 of word 0, at stride 2 the unrolled code sets bit 0 of word 2 and the loop does
not; at stride 0 the loop sets bit 0 of word 0 and the unrolled code does not. -/
theorem bs_transpose_rev_unrolled_differs_from_loop :
    (((bs_transpose_rev bitOneBlock 2).getD 2 0).testBit 0 = true ∧
      ((bs_transpose_rev_loop bitOneBlock 2).getD 2 0).testBit 0 = false ∧
      bs_transpose_rev bitOneBlock 2 ≠ bs_transpose_rev_loop bitOneBlock 2) ∧
    (((bs_transpose_rev bitOneBlock 0).getD 0 0).testBit 0 = false ∧
      ((bs_transpose_rev_loop bitOneBlock 0).getD 0 0).testBit 0 = true ∧
      bs_transpose_rev bitOneBlock 0 ≠ bs_transpose_rev_loop bitOneBlock 0) := by
  have hu2 : ((bs_transpose_rev bitOneBlock 2).getD 2 0).testBit 0 = true := by
    rw [bs_transpose_rev_getD_lt _ _ _ (by decide),
      bs_transpose_rev_scratch_testBit _ _ _ (by decide), bitOneBlock_getD]
    decide
  have hl2 : ((bs_transpose_rev_loop bitOneBlock 2).getD 2 0).testBit 0 = false := by
    rw [bs_transpose_rev_loop_getD_lt _ _ _ (by decide), Bool.eq_false_iff]
    intro h
    obtain ⟨k, hk, j, hj, hidx, _, hm⟩ :=
      (bs_transpose_rev_loop_scratch_testBit _ _ _ _ (by decide)).mp h
    omega
  have hu0 : ((bs_transpose_rev bitOneBlock 0).getD 0 0).testBit 0 = false := by
    rw [bs_transpose_rev_getD_lt _ _ _ (by decide), Bool.eq_false_iff]
    intro h
    have h' := ((bs_transpose_rev_scratch_testBit _ _ _ (by decide)).mp h).2
    rw [bitOneBlock_getD] at h'
    revert h'
    decide
  have hl0 : ((bs_transpose_rev_loop bitOneBlock 0).getD 0 0).testBit 0 = true := by
    rw [bs_transpose_rev_loop_getD_lt _ _ _ (by decide),
      bs_transpose_rev_loop_scratch_testBit _ _ _ _ (by decide)]
    refine ⟨0, by decide, 1, by decide, by decide, ?_, by decide⟩
    rw [bitOneBlock_getD]
    decide
  refine ⟨⟨hu2, hl2, ?_⟩, ⟨hu0, hl0, ?_⟩⟩
  · intro heq
    rw [heq, hl2] at hu2
    exact Bool.false_ne_true hu2
  · intro heq
    rw [heq, hl0] at hu0
    exact Bool.false_ne_true hu0.symm

/-- C20: the unrolled body of `bs_transpose_dst` is the loop over the bit positions
`j = 0..63` of the `#ifndef UNROLL_TRANSPOSE` branch: the two bodies agree on every
destination, offset, word and bit position, and so do the two builds of `bs_transpose_dst`
on every destination, input buffer and stride. -/
theorem bs_transpose_dst_unrolled_eq_loop (transpose blocks : List Nat)
    (s offset w bitpos : Nat) :
    bs_transpose_dst_unrolled transpose offset w bitpos =
      forLoop WORD_SIZE (fun j transpose =>
        transpose.set (offset + j)
          (transpose.getD (offset + j) 0 ||| (if w &&& (ONE <<< j) ≠ 0 then bitpos else 0)))
        transpose ∧
    bs_transpose_dst transpose blocks s = bs_transpose_dst_loop transpose blocks s :=
  ⟨bs_transpose_dst_unrolled_eq_forLoop transpose offset w bitpos,
    bs_transpose_dst_eq_loop transpose blocks s⟩

/-! ## Index traces of the transposes -/

/-- Membership in a trace built by a loop whose every iteration only appends. -/
theorem forLoop_mem {α : Type} (J : Nat) (body : Nat → List α → List α)
    (P : Nat → α → Prop)
    (h : ∀ j, j < J → ∀ tr x, (x ∈ body j tr ↔ x ∈ tr ∨ P j x)) (tr : List α) (x : α) :
    x ∈ forLoop J body tr ↔ x ∈ tr ∨ ∃ j, j < J ∧ P j x := by
  induction J with
  | zero =>
    constructor
    · intro hx
      exact Or.inl hx
    · rintro (hx | ⟨j, hj, _⟩)
      · exact hx
      · exact absurd hj (Nat.not_lt_zero j)
  | succ J ih =>
    rw [forLoop_succ, h J (Nat.lt_succ_self J), ih (fun j hj => h j (Nat.lt_succ_of_lt hj))]
    constructor
    · rintro ((hx | ⟨j, hj, hp⟩) | hp)
      · exact Or.inl hx
      · exact Or.inr ⟨j, Nat.lt_succ_of_lt hj, hp⟩
      · exact Or.inr ⟨J, Nat.lt_succ_self J, hp⟩
    · rintro (hx | ⟨j, hj, hp⟩)
      · exact Or.inl (Or.inl hx)
      · rcases Nat.lt_succ_iff_lt_or_eq.mp hj with hlt | heq
        · exact Or.inl (Or.inr ⟨j, hlt, hp⟩)
        · subst heq
          exact Or.inr hp

theorem mem_append_singleton {α : Type} (tr : List α) (v x : α) :
    x ∈ tr ++ [v] ↔ x ∈ tr ∨ x = v := by
  rw [List.mem_append, List.mem_singleton]

theorem bs_transpose_dst_unrolled_traced_eq_forLoop (st : List Nat × List Nat)
    (offset w bitpos : Nat) :
    bs_transpose_dst_unrolled_traced st offset w bitpos =
      forLoop 64 (fun j st => or_bit_traced st (offset + j) w j bitpos) st := by
  rw [forLoop_sixty_four]
  simp only [forLoop_eight]
  rfl

theorem bs_transpose_rev_unrolled_traced_eq_forLoop (st : List Nat × List Nat)
    (offset w bitpos : Nat) :
    bs_transpose_rev_unrolled_traced st offset w bitpos =
      forLoop 64 (fun j st => or_bit_traced st (j * WORDS_PER_BLOCK + offset) w j bitpos) st := by
  rw [forLoop_sixty_four]
  simp only [forLoop_eight]
  rfl

/-- The traced unrolled body of `bs_transpose_dst` is the unrolled body paired with the
trace of the indices `offset + j`. -/
theorem bs_transpose_dst_unrolled_traced_eq (t tr : List Nat) (offset w bitpos : Nat) :
    bs_transpose_dst_unrolled_traced (t, tr) offset w bitpos =
      (bs_transpose_dst_unrolled t offset w bitpos,
        forLoop 64 (fun j tr => tr ++ [offset + j]) tr) := by
  rw [bs_transpose_dst_unrolled_traced_eq_forLoop, bs_transpose_dst_unrolled_eq_forLoop]
  exact forLoop_prod 64 (fun j st => or_bit_traced st (offset + j) w j bitpos)
    (fun j t => or_bit t (offset + j) w j bitpos) (fun j tr => tr ++ [offset + j])
    (fun _ _ _ => rfl) t tr

/-- The traced unrolled body of `bs_transpose_rev` is the unrolled body paired with the
trace of the indices `j * WORDS_PER_BLOCK + offset`. -/
theorem bs_transpose_rev_unrolled_traced_eq (t tr : List Nat) (offset w bitpos : Nat) :
    bs_transpose_rev_unrolled_traced (t, tr) offset w bitpos =
      (bs_transpose_rev_unrolled t offset w bitpos,
        forLoop 64 (fun j tr => tr ++ [j * WORDS_PER_BLOCK + offset]) tr) := by
  rw [bs_transpose_rev_unrolled_traced_eq_forLoop, bs_transpose_rev_unrolled_eq_forLoop]
  exact forLoop_prod 64
    (fun j st => or_bit_traced st (j * WORDS_PER_BLOCK + offset) w j bitpos)
    (fun j t => or_bit t (j * WORDS_PER_BLOCK + offset) w j bitpos)
    (fun j tr => tr ++ [j * WORDS_PER_BLOCK + offset]) (fun _ _ _ => rfl) t tr

/-- The traced `bs_transpose_dst` is `bs_transpose_dst` together with the trace of the
accessed indices of `transpose` and the trace of the read indices of `blocks`. -/
theorem bs_transpose_dst_traced_eq (transpose blocks : List Nat) (s : Nat) :
    bs_transpose_dst_traced transpose blocks s =
      ((bs_transpose_dst transpose blocks s,
        forLoop WORD_SIZE (fun _ tr =>
          forLoop WORDS_PER_BLOCK (fun i tr =>
            forLoop 64 (fun j tr => tr ++ [(i <<< MUL_SHIFT) + j]) tr) tr) []),
        forLoop WORD_SIZE (fun k tr =>
          forLoop WORDS_PER_BLOCK (fun i tr =>
            tr ++ [(k * WORDS_PER_BLOCK * s + i) % WORD_MOD]) tr) []) := by
  unfold bs_transpose_dst_traced bs_transpose_dst
  have hfst := forLoop_prod WORD_SIZE
    (fun k (st : List Nat × List Nat) =>
      forLoop WORDS_PER_BLOCK (fun i st =>
        bs_transpose_dst_unrolled_traced st (i <<< MUL_SHIFT)
          (blocks.getD ((k * WORDS_PER_BLOCK * s + i) % WORD_MOD) 0) (ONE <<< k)) st)
    (fun k t =>
      forLoop WORDS_PER_BLOCK (fun i t =>
        bs_transpose_dst_unrolled t (i <<< MUL_SHIFT)
          (blocks.getD ((k * WORDS_PER_BLOCK * s + i) % WORD_MOD) 0) (ONE <<< k)) t)
    (fun _ tr =>
      forLoop WORDS_PER_BLOCK (fun i tr =>
        forLoop 64 (fun j tr => tr ++ [(i <<< MUL_SHIFT) + j]) tr) tr)
    (fun k x y => forLoop_prod WORDS_PER_BLOCK
      (fun i st =>
        bs_transpose_dst_unrolled_traced st (i <<< MUL_SHIFT)
          (blocks.getD ((k * WORDS_PER_BLOCK * s + i) % WORD_MOD) 0) (ONE <<< k))
      (fun i t =>
        bs_transpose_dst_unrolled t (i <<< MUL_SHIFT)
          (blocks.getD ((k * WORDS_PER_BLOCK * s + i) % WORD_MOD) 0) (ONE <<< k))
      (fun i tr => forLoop 64 (fun j tr => tr ++ [(i <<< MUL_SHIFT) + j]) tr)
      (fun i t tr => bs_transpose_dst_unrolled_traced_eq t tr _ _ _) x y)
    transpose []
  have hall := forLoop_prod WORD_SIZE
    (fun k (st : (List Nat × List Nat) × List Nat) =>
      forLoop WORDS_PER_BLOCK (fun i st =>
        (bs_transpose_dst_unrolled_traced st.1 (i <<< MUL_SHIFT)
            (blocks.getD ((k * WORDS_PER_BLOCK * s + i) % WORD_MOD) 0) (ONE <<< k),
          st.2 ++ [(k * WORDS_PER_BLOCK * s + i) % WORD_MOD])) st)
    (fun k (st : List Nat × List Nat) =>
      forLoop WORDS_PER_BLOCK (fun i st =>
        bs_transpose_dst_unrolled_traced st (i <<< MUL_SHIFT)
          (blocks.getD ((k * WORDS_PER_BLOCK * s + i) % WORD_MOD) 0) (ONE <<< k)) st)
    (fun k tr =>
      forLoop WORDS_PER_BLOCK (fun i tr =>
        tr ++ [(k * WORDS_PER_BLOCK * s + i) % WORD_MOD]) tr)
    (fun k x y => forLoop_prod WORDS_PER_BLOCK
      (fun i (st : (List Nat × List Nat) × List Nat) =>
        (bs_transpose_dst_unrolled_traced st.1 (i <<< MUL_SHIFT)
            (blocks.getD ((k * WORDS_PER_BLOCK * s + i) % WORD_MOD) 0) (ONE <<< k),
          st.2 ++ [(k * WORDS_PER_BLOCK * s + i) % WORD_MOD]))
      (fun i st =>
        bs_transpose_dst_unrolled_traced st (i <<< MUL_SHIFT)
          (blocks.getD ((k * WORDS_PER_BLOCK * s + i) % WORD_MOD) 0) (ONE <<< k))
      (fun i tr => tr ++ [(k * WORDS_PER_BLOCK * s + i) % WORD_MOD])
      (fun _ _ _ => rfl) x y)
    (transpose, []) []
  exact hall.trans (by rw [hfst])

/-- The traced `k` loop of `bs_transpose_rev` is its scratch block together with the trace
of the accessed indices of the scratch block and the trace of the read indices of
`blocks`. -/
theorem bs_transpose_rev_scratch_traced_eq (blocks : List Nat) :
    bs_transpose_rev_scratch_traced blocks =
      ((bs_transpose_rev_scratch blocks,
        forLoop BLOCK_SIZE (fun k tr =>
          forLoop 64 (fun j tr => tr ++ [j * WORDS_PER_BLOCK + k / WORD_SIZE]) tr) []),
        forLoop BLOCK_SIZE (fun k tr => tr ++ [k]) []) := by
  unfold bs_transpose_rev_scratch_traced bs_transpose_rev_scratch
  have hfst := forLoop_prod BLOCK_SIZE
    (fun k (st : List Nat × List Nat) =>
      bs_transpose_rev_unrolled_traced st (k / WORD_SIZE) (blocks.getD k 0)
        (ONE <<< (k % WORD_SIZE)))
    (fun k t =>
      bs_transpose_rev_unrolled t (k / WORD_SIZE) (blocks.getD k 0) (ONE <<< (k % WORD_SIZE)))
    (fun k tr => forLoop 64 (fun j tr => tr ++ [j * WORDS_PER_BLOCK + k / WORD_SIZE]) tr)
    (fun k t tr => bs_transpose_rev_unrolled_traced_eq t tr _ _ _)
    (List.replicate BLOCK_SIZE 0) []
  have hall := forLoop_prod BLOCK_SIZE
    (fun k (st : (List Nat × List Nat) × List Nat) =>
      (bs_transpose_rev_unrolled_traced st.1 (k / WORD_SIZE) (blocks.getD k 0)
          (ONE <<< (k % WORD_SIZE)),
        st.2 ++ [k]))
    (fun k (st : List Nat × List Nat) =>
      bs_transpose_rev_unrolled_traced st (k / WORD_SIZE) (blocks.getD k 0)
        (ONE <<< (k % WORD_SIZE)))
    (fun k tr => tr ++ [k])
    (fun _ _ _ => rfl)
    (List.replicate BLOCK_SIZE 0, []) []
  exact hall.trans (by rw [hfst])

/-- The indices of `transpose` that `bs_transpose_dst` accesses. -/
theorem bs_transpose_dst_writes_mem (x : Nat) :
    x ∈ forLoop WORD_SIZE (fun _ tr =>
        forLoop WORDS_PER_BLOCK (fun i tr =>
          forLoop 64 (fun j tr => tr ++ [(i <<< MUL_SHIFT) + j]) tr) tr) [] ↔
      ∃ k, k < 64 ∧ ∃ i, i < 2 ∧ ∃ j, j < 64 ∧ x = (i <<< 6) + j := by
  rw [forLoop_mem WORD_SIZE _ (fun _ x => ∃ i, i < 2 ∧ ∃ j, j < 64 ∧ x = (i <<< 6) + j)
    (fun k _ tr x =>
      forLoop_mem WORDS_PER_BLOCK
        (fun i tr => forLoop 64 (fun j tr => tr ++ [(i <<< MUL_SHIFT) + j]) tr)
        (fun i x => ∃ j, j < 64 ∧ x = (i <<< 6) + j)
        (fun i _ tr x =>
          forLoop_mem 64 (fun j tr => tr ++ [(i <<< MUL_SHIFT) + j])
            (fun j x => x = (i <<< 6) + j)
            (fun j _ tr x => mem_append_singleton tr _ x) tr x) tr x)]
  simp only [List.not_mem_nil, false_or]

/-- The indices of `blocks` that `bs_transpose_dst` reads. -/
theorem bs_transpose_dst_reads_mem (s x : Nat) :
    x ∈ forLoop WORD_SIZE (fun k tr =>
        forLoop WORDS_PER_BLOCK (fun i tr =>
          tr ++ [(k * WORDS_PER_BLOCK * s + i) % WORD_MOD]) tr) [] ↔
      ∃ k, k < 64 ∧ ∃ i, i < 2 ∧ x = (k * 2 * s + i) % 2 ^ 64 := by
  rw [forLoop_mem WORD_SIZE _ (fun k x => ∃ i, i < 2 ∧ x = (k * 2 * s + i) % 2 ^ 64)
    (fun k _ tr x =>
      forLoop_mem WORDS_PER_BLOCK
        (fun i tr => tr ++ [(k * WORDS_PER_BLOCK * s + i) % WORD_MOD])
        (fun i x => x = (k * 2 * s + i) % 2 ^ 64)
        (fun i _ tr x => mem_append_singleton tr _ x) tr x)]
  simp only [List.not_mem_nil, false_or]

/-- The indices of the scratch block that the `k` loop of `bs_transpose_rev` accesses. -/
theorem bs_transpose_rev_writes_mem (x : Nat) :
    x ∈ forLoop BLOCK_SIZE (fun k tr =>
        forLoop 64 (fun j tr => tr ++ [j * WORDS_PER_BLOCK + k / WORD_SIZE]) tr) [] ↔
      ∃ k, k < 128 ∧ ∃ j, j < 64 ∧ x = j * 2 + k / 64 := by
  rw [forLoop_mem BLOCK_SIZE _ (fun k x => ∃ j, j < 64 ∧ x = j * 2 + k / 64)
    (fun k _ tr x =>
      forLoop_mem 64 (fun j tr => tr ++ [j * WORDS_PER_BLOCK + k / WORD_SIZE])
        (fun j x => x = j * 2 + k / 64)
        (fun j _ tr x => mem_append_singleton tr _ x) tr x)]
  simp only [List.not_mem_nil, false_or]

/-- The indices of `blocks` that the `k` loop of `bs_transpose_rev` reads. -/
theorem bs_transpose_rev_reads_mem (x : Nat) :
    x ∈ forLoop BLOCK_SIZE (fun k tr => tr ++ [k]) [] ↔ x < 128 := by
  rw [forLoop_mem BLOCK_SIZE (fun k tr => tr ++ [k]) (fun k x => x = k)
    (fun k _ tr x => mem_append_singleton tr _ x)]
  simp only [List.not_mem_nil, false_or]
  constructor
  · rintro ⟨k, hk, rfl⟩
    exact hk
  · intro hx
    exact ⟨x, hx, rfl⟩

/-! ## Single-bit blocks and the second round trip -/

theorem singleBitBlock_length (p q : Nat) : (singleBitBlock p q).length = 128 := by
  simp [singleBitBlock]

theorem singleBitBlock_getD (p q n : Nat) :
    (singleBitBlock p q).getD n 0 = if p = n ∧ p < 128 then ONE <<< q else 0 := by
  unfold singleBitBlock
  rw [List.getD_eq_getElem?_getD, List.getElem?_set, List.length_replicate]
  by_cases h : p = n
  · subst h
    by_cases hp : p < 128
    · simp [hp]
    · simp [hp]
  · rw [if_neg h, if_neg (fun h' => h h'.1), List.getElem?_replicate]
    split <;> rfl

theorem singleBitBlock_testBit (p q n m : Nat) :
    ((singleBitBlock p q).getD n 0).testBit m = true ↔ p = n ∧ p < 128 ∧ q = m := by
  rw [singleBitBlock_getD]
  by_cases h : p = n ∧ p < 128
  · rw [if_pos h, one_shiftLeft_testBit]
    exact ⟨fun hq => ⟨h.1, h.2, hq⟩, fun hq => hq.2.2⟩
  · rw [if_neg h, Nat.zero_testBit]
    exact ⟨fun hf => absurd hf Bool.false_ne_true, fun hq => absurd ⟨hq.1, hq.2.1⟩ h⟩

/-- Bit `m` of word `n < 128` after `bs_transpose`: bit `n % 64` of the input word of row
`m` and lane `n / 64`. -/
theorem bs_transpose_testBit (B : List Nat) (s n m : Nat) (hn : n < 128) :
    ((bs_transpose B s).getD n 0).testBit m = true ↔
      m < 64 ∧ (B.getD ((m * 2 * s + n / 64) % 2 ^ 64) 0).testBit (n % 64) = true := by
  rw [bs_transpose_getD_lt _ _ _ hn, bs_transpose_dst_zero_testBit _ _ _ _ hn]

/-- Bit `m` of word `n < 128` after `bs_transpose_rev`: bit `n / 2` of the input word
`(n % 2) * 64 + m`. -/
theorem bs_transpose_rev_testBit (B : List Nat) (s n m : Nat) (hn : n < 128) :
    ((bs_transpose_rev B s).getD n 0).testBit m = true ↔
      m < 64 ∧ (B.getD (n % 2 * 64 + m) 0).testBit (n / 2) = true := by
  rw [bs_transpose_rev_getD_lt _ _ _ hn, bs_transpose_rev_scratch_testBit _ _ _ hn]

/-- Word `n < 128` after `bs_transpose_rev` then `bs_transpose` at stride 1: the original
word, cut to 64 bits. -/
theorem bs_transpose_transpose_rev_getD (B : List Nat) (s n : Nat) (hn : n < 128) :
    (bs_transpose (bs_transpose_rev B s) 1).getD n 0 = B.getD n 0 % 2 ^ 64 := by
  apply Nat.eq_of_testBit_eq
  intro m
  rw [Bool.eq_iff_iff, bs_transpose_testBit _ _ _ _ hn, Nat.testBit_mod_two_pow,
    Bool.and_eq_true, decide_eq_true_eq]
  constructor
  · rintro ⟨hm, hb⟩
    have hidx : (m * 2 * 1 + n / 64) % 2 ^ 64 = m * 2 + n / 64 := by omega
    rw [hidx, bs_transpose_rev_testBit _ _ _ _ (by omega)] at hb
    have h1 : (m * 2 + n / 64) % 2 * 64 + n % 64 = n := by omega
    have h2 : (m * 2 + n / 64) / 2 = m := by omega
    rw [h1, h2] at hb
    exact ⟨hm, hb.2⟩
  · rintro ⟨hm, hb⟩
    refine ⟨hm, ?_⟩
    have hidx : (m * 2 * 1 + n / 64) % 2 ^ 64 = m * 2 + n / 64 := by omega
    rw [hidx, bs_transpose_rev_testBit _ _ _ _ (by omega)]
    have h1 : (m * 2 + n / 64) % 2 * 64 + n % 64 = n := by omega
    have h2 : (m * 2 + n / 64) / 2 = m := by omega
    rw [h1, h2]
    exact ⟨by omega, hb⟩

theorem getD_mod_of_lt (B : List Nat) (hw : ∀ w ∈ B, w < 2 ^ 64) (n : Nat)
    (hn : n < B.length) : B.getD n 0 % 2 ^ 64 = B.getD n 0 := by
  apply Nat.mod_eq_of_lt
  apply hw
  rw [List.getD_eq_getElem?_getD, List.getElem?_eq_getElem hn]
  exact List.getElem_mem hn

/-! ## The multiplicative structure of the packed tables -/

/-- The product of two nonzero bytes is nonzero, and its logarithm is the sum of the
logarithms modulo 255. -/
theorem mulPacked_ne_zero (a b : Nat) (ha : a < 256) (hb : b < 256) (ha0 : a ≠ 0)
    (hb0 : b ≠ 0) :
    mulPacked a b ≠ 0 ∧
    packedGet LOG_PACKED (mulPacked a b) =
      (packedGet LOG_PACKED a + packedGet LOG_PACKED b) % 255 := by
  rw [mulPacked_eq_exp a b ha hb ha0 hb0]
  have h := log_exp ((packedGet LOG_PACKED a + packedGet LOG_PACKED b) % 255)
    (Nat.mod_lt _ (by decide))
  exact ⟨h.2, h.1⟩

/-- The packed multiplier has no zero divisors. -/
theorem mulPacked_eq_zero_iff (a b : Nat) (ha : a < 256) (hb : b < 256) :
    mulPacked a b = 0 ↔ a = 0 ∨ b = 0 := by
  constructor
  · intro h
    by_contra hne
    exact (mulPacked_ne_zero a b ha hb (fun h0 => hne (Or.inl h0))
      (fun h0 => hne (Or.inr h0))).1 h
  · rintro (h | h)
    · rw [h, mulPacked_zero_left]
    · rw [h, mulPacked_zero_right]

/-- The packed multiplier is associative. -/
theorem mulPacked_assoc (a b c : Nat) (ha : a < 256) (hb : b < 256) (hc : c < 256) :
    mulPacked (mulPacked a b) c = mulPacked a (mulPacked b c) := by
  by_cases ha0 : a = 0
  · rw [ha0, mulPacked_zero_left, mulPacked_zero_left, mulPacked_zero_left]
  by_cases hb0 : b = 0
  · rw [hb0, mulPacked_zero_right, mulPacked_zero_left, mulPacked_zero_right]
  by_cases hc0 : c = 0
  · rw [hc0, mulPacked_zero_right, mulPacked_zero_right, mulPacked_zero_right]
  have hab := mulPacked_ne_zero a b ha hb ha0 hb0
  have hbc := mulPacked_ne_zero b c hb hc hb0 hc0
  rw [mulPacked_eq_exp (mulPacked a b) c (mulPacked_lt a b) hc hab.1 hc0, hab.2,
    mulPacked_eq_exp a (mulPacked b c) ha (mulPacked_lt b c) ha0 hbc.1, hbc.2]
  congr 1
  omega

theorem bs_transpose_rev_eq_memmove (B : List Nat) (s : Nat) :
    bs_transpose_rev B s = memmove B (bs_transpose_rev_scratch B) BLOCK_SIZE := rfl

/-! ## Claims on single-bit blocks, table structure, index ranges and inverses -/

/-- C21: for all `k < 64`, `i < 2`, `j < 64`, `bs_transpose` at stride 1 of the 128-word
block whose only set bit is bit `j` of word `k * 2 + i` is the block whose only set bit is
bit `k` of word `(i << 6) + j`; in particular only bit 0 of word 0 gives only bit 0 of
word 0. -/
theorem bs_transpose_single_bit (k i j : Nat) (hk : k < 64) (hi : i < 2) (hj : j < 64) :
    bs_transpose (singleBitBlock (k * 2 + i) j) 1 = singleBitBlock ((i <<< 6) + j) k ∧
    (∀ n m, n < 128 →
      (((bs_transpose (singleBitBlock (k * 2 + i) j) 1).getD n 0).testBit m = true ↔
        n = (i <<< 6) + j ∧ m = k)) ∧
    bs_transpose (singleBitBlock 0 0) 1 = singleBitBlock 0 0 := by
  have key : ∀ k i j, k < 64 → i < 2 → j < 64 → ∀ n m, n < 128 →
      (((bs_transpose (singleBitBlock (k * 2 + i) j) 1).getD n 0).testBit m = true ↔
        n = (i <<< 6) + j ∧ m = k) := by
    intro k i j hk hi hj n m hn
    rw [bs_transpose_testBit _ _ _ _ hn, singleBitBlock_testBit, Nat.shiftLeft_eq]
    constructor
    · rintro ⟨hm, hidx, _, hbit⟩
      omega
    · rintro ⟨hn', hm'⟩
      refine ⟨by omega, by omega, by omega, by omega⟩
  have heq : ∀ k i j, k < 64 → i < 2 → j < 64 →
      bs_transpose (singleBitBlock (k * 2 + i) j) 1 = singleBitBlock ((i <<< 6) + j) k := by
    intro k i j hk hi hj
    apply list_ext_getD
    · rw [bs_transpose_length _ _ (by rw [singleBitBlock_length]), singleBitBlock_length,
        singleBitBlock_length]
    · intro n hn
      rw [bs_transpose_length _ _ (by rw [singleBitBlock_length]), singleBitBlock_length] at hn
      apply Nat.eq_of_testBit_eq
      intro m
      rw [Bool.eq_iff_iff, key k i j hk hi hj n m hn, singleBitBlock_testBit,
        Nat.shiftLeft_eq]
      constructor
      · rintro ⟨hn', hm'⟩
        exact ⟨hn'.symm, by omega, hm'.symm⟩
      · rintro ⟨hn', _, hm'⟩
        exact ⟨hn'.symm, hm'.symm⟩
  exact ⟨heq k i j hk hi hj, key k i j hk hi hj,
    heq 0 0 0 (by decide) (by decide) (by decide)⟩

/-- Witness of `bs_transpose_single_bit` at `k = 5`, `i = 1`, `j = 9`. -/
theorem bs_transpose_single_bit_witness :
    (5 < 64 ∧ 1 < 2 ∧ 9 < 64) ∧
    (bs_transpose (singleBitBlock (5 * 2 + 1) 9) 1 = singleBitBlock ((1 <<< 6) + 9) 5 ∧
    (∀ n m, n < 128 →
      (((bs_transpose (singleBitBlock (5 * 2 + 1) 9) 1).getD n 0).testBit m = true ↔
        n = (1 <<< 6) + 9 ∧ m = 5)) ∧
    bs_transpose (singleBitBlock 0 0) 1 = singleBitBlock 0 0) :=
  ⟨⟨by decide, by decide, by decide⟩,
    bs_transpose_single_bit 5 1 9 (by decide) (by decide) (by decide)⟩

/-- C22: the result of `multiply_8b_using_log_table` does not depend on `log_table[0]`: two
log tables that agree on every index `1..255` give the same result, for all bytes `lhs`,
`rhs` and every exp table. -/
theorem multiply_8b_using_log_table_ignores_log_zero (lhs rhs : Nat)
    (log_table log_table' exp_table : List Nat) (hl : lhs < 256) (hr : rhs < 256)
    (hagree : ∀ x, 1 ≤ x → x < 256 → log_table.getD x 0 = log_table'.getD x 0) :
    multiply_8b_using_log_table lhs rhs log_table exp_table =
      multiply_8b_using_log_table lhs rhs log_table' exp_table := by
  unfold multiply_8b_using_log_table
  by_cases h : lhs ≠ 0 ∧ rhs ≠ 0
  · rw [if_pos h, if_pos h, hagree lhs (Nat.pos_of_ne_zero h.1) hl,
      hagree rhs (Nat.pos_of_ne_zero h.2) hr]
  · rw [if_neg h, if_neg h]

/-- Witness of `multiply_8b_using_log_table_ignores_log_zero`: `LOG_TABLE` and `LOG_TABLE`
with entry 0 replaced by `0x7B`. -/
theorem multiply_8b_using_log_table_ignores_log_zero_witness :
    (0x35 < 256 ∧ 0xC2 < 256 ∧
      ∀ x, 1 ≤ x → x < 256 → LOG_TABLE.getD x 0 = (LOG_TABLE.set 0 0x7B).getD x 0) ∧
    multiply_8b_using_log_table 0x35 0xC2 LOG_TABLE EXP_TABLE =
      multiply_8b_using_log_table 0x35 0xC2 (LOG_TABLE.set 0 0x7B) EXP_TABLE :=
  ⟨⟨by decide, by decide, fun x hx _ => by
      rw [List.getD_eq_getElem?_getD, List.getD_eq_getElem?_getD,
        List.getElem?_set_ne (by omega)]⟩,
    multiply_8b_using_log_table_ignores_log_zero 0x35 0xC2 LOG_TABLE (LOG_TABLE.set 0 0x7B)
      EXP_TABLE (by decide) (by decide) (fun x hx _ => by
        rw [List.getD_eq_getElem?_getD, List.getD_eq_getElem?_getD,
          List.getElem?_set_ne (by omega)])⟩

/-- C23: `EXP_TABLE` restricted to the indices `0..254` is a bijection onto the bytes
`1..255`, `LOG_TABLE` restricted to the indices `1..255` is a bijection onto `0..254`, and
`LOG_TABLE[EXP_TABLE[e]] == e` for every `e` in `0..254`. -/
theorem EXP_TABLE_LOG_TABLE_bijections (e : Nat) (he : e < 255) :
    Set.BijOn (fun e => EXP_TABLE.getD e 0) {e | e < 255} {y | 1 ≤ y ∧ y ≤ 255} ∧
    Set.BijOn (fun x => LOG_TABLE.getD x 0) {x | 1 ≤ x ∧ x ≤ 255} {e | e < 255} ∧
    LOG_TABLE.getD (EXP_TABLE.getD e 0) 0 = e := by
  simp only [LOG_TABLE_getD, EXP_TABLE_getD]
  refine ⟨⟨?_, ?_, ?_⟩, ⟨?_, ?_, ?_⟩, (log_exp e he).1⟩
  · intro x hx
    have h1 := (log_exp x hx).2
    have h2 := packedGet_lt EXP_PACKED x
    show 1 ≤ packedGet EXP_PACKED x ∧ packedGet EXP_PACKED x ≤ 255
    exact ⟨Nat.pos_of_ne_zero h1, by omega⟩
  · intro x hx x' hx' heq
    have h := congrArg (packedGet LOG_PACKED) heq
    simp only at h
    rw [(log_exp x hx).1, (log_exp x' hx').1] at h
    exact h
  · intro y hy
    exact ⟨packedGet LOG_PACKED y, Nat.lt_succ_of_le (log_le y (by
      have := hy.2
      omega)), exp_log y (by
      have := hy.2
      omega) (by
      have := hy.1
      omega)⟩
  · intro x hx
    show packedGet LOG_PACKED x < 255
    exact Nat.lt_succ_of_le (log_le x (by
      have := hx.2
      omega))
  · intro x hx x' hx' heq
    have h := congrArg (packedGet EXP_PACKED) heq
    simp only at h
    rw [exp_log x (by have := hx.2; omega) (by have := hx.1; omega),
      exp_log x' (by have := hx'.2; omega) (by have := hx'.1; omega)] at h
    exact h
  · intro x hx
    have h1 := log_exp x hx
    have h2 := packedGet_lt EXP_PACKED x
    exact ⟨packedGet EXP_PACKED x, ⟨Nat.pos_of_ne_zero h1.2, by omega⟩, h1.1⟩

/-- Witness of `EXP_TABLE_LOG_TABLE_bijections` at the exponent 254. -/
theorem EXP_TABLE_LOG_TABLE_bijections_witness :
    254 < 255 ∧
    (Set.BijOn (fun e => EXP_TABLE.getD e 0) {e | e < 255} {y | 1 ≤ y ∧ y ≤ 255} ∧
    Set.BijOn (fun x => LOG_TABLE.getD x 0) {x | 1 ≤ x ∧ x ≤ 255} {e | e < 255} ∧
    LOG_TABLE.getD (EXP_TABLE.getD 254 0) 0 = 254) :=
  ⟨by decide, EXP_TABLE_LOG_TABLE_bijections 254 (by decide)⟩

/-- C24: on an input buffer that holds `126 * s + 2` words, every index `bs_transpose_dst`
reads from `blocks` is some `k * 2 * s + i` (`k < 64`, `i < 2`) and lies inside the buffer,
and every index of `transpose` it accesses is below 128; the `k` loop of `bs_transpose_rev`
as built reads only the indices `0..127` of `blocks` and accesses only scratch indices
`j * 2 + k / 64`, all below 128. -/
theorem transposes_index_in_range (transpose blocks B : List Nat) (s : Nat)
    (hlen : 126 * s + 2 ≤ blocks.length) (hmem : blocks.length ≤ 2 ^ 64) :
    ((bs_transpose_dst_traced transpose blocks s).1.1 = bs_transpose_dst transpose blocks s ∧
      (∀ x ∈ (bs_transpose_dst_traced transpose blocks s).2,
        x < blocks.length ∧ ∃ k, k < 64 ∧ ∃ i, i < 2 ∧ x = k * 2 * s + i) ∧
      (∀ x ∈ (bs_transpose_dst_traced transpose blocks s).1.2,
        x < 128 ∧ ∃ i, i < 2 ∧ ∃ j, j < 64 ∧ x = (i <<< 6) + j)) ∧
    ((bs_transpose_rev_scratch_traced B).1.1 = bs_transpose_rev_scratch B ∧
      bs_transpose_rev B s = memmove B (bs_transpose_rev_scratch_traced B).1.1 BLOCK_SIZE ∧
      (∀ x ∈ (bs_transpose_rev_scratch_traced B).2, x < 128) ∧
      (∀ x ∈ (bs_transpose_rev_scratch_traced B).1.2,
        x < 128 ∧ ∃ k, k < 128 ∧ ∃ j, j < 64 ∧ x = j * 2 + k / 64)) := by
  rw [bs_transpose_dst_traced_eq, bs_transpose_rev_scratch_traced_eq]
  dsimp only
  refine ⟨⟨Eq.refl _, ?_, ?_⟩, ⟨Eq.refl _, bs_transpose_rev_eq_memmove B s, ?_, ?_⟩⟩
  · intro x hx
    obtain ⟨k, hk, i, hi, rfl⟩ := (bs_transpose_dst_reads_mem s x).mp hx
    have hmul : k * 2 * s ≤ 126 * s := Nat.mul_le_mul_right s (by omega)
    have hidx : (k * 2 * s + i) % 2 ^ 64 = k * 2 * s + i := Nat.mod_eq_of_lt (by omega)
    rw [hidx]
    exact ⟨by omega, k, hk, i, hi, rfl⟩
  · intro x hx
    obtain ⟨k, _, i, hi, j, hj, rfl⟩ := (bs_transpose_dst_writes_mem x).mp hx
    refine ⟨?_, i, hi, j, hj, rfl⟩
    rw [Nat.shiftLeft_eq]
    omega
  · intro x hx
    exact (bs_transpose_rev_reads_mem x).mp hx
  · intro x hx
    obtain ⟨k, hk, j, hj, rfl⟩ := (bs_transpose_rev_writes_mem x).mp hx
    exact ⟨by omega, k, hk, j, hj, rfl⟩

/-- Witness of `transposes_index_in_range`: the block whose word `n` is `n`, stride 1. -/
theorem transposes_index_in_range_witness :
    (126 * 1 + 2 ≤ (List.range 128).length ∧ (List.range 128).length ≤ 2 ^ 64) ∧
    (((bs_transpose_dst_traced (List.replicate 128 0) (List.range 128) 1).1.1 =
        bs_transpose_dst (List.replicate 128 0) (List.range 128) 1 ∧
      (∀ x ∈ (bs_transpose_dst_traced (List.replicate 128 0) (List.range 128) 1).2,
        x < (List.range 128).length ∧ ∃ k, k < 64 ∧ ∃ i, i < 2 ∧ x = k * 2 * 1 + i) ∧
      (∀ x ∈ (bs_transpose_dst_traced (List.replicate 128 0) (List.range 128) 1).1.2,
        x < 128 ∧ ∃ i, i < 2 ∧ ∃ j, j < 64 ∧ x = (i <<< 6) + j)) ∧
    ((bs_transpose_rev_scratch_traced (List.range 128)).1.1 =
        bs_transpose_rev_scratch (List.range 128) ∧
      bs_transpose_rev (List.range 128) 1 =
        memmove (List.range 128) (bs_transpose_rev_scratch_traced (List.range 128)).1.1
          BLOCK_SIZE ∧
      (∀ x ∈ (bs_transpose_rev_scratch_traced (List.range 128)).2, x < 128) ∧
      (∀ x ∈ (bs_transpose_rev_scratch_traced (List.range 128)).1.2,
        x < 128 ∧ ∃ k, k < 128 ∧ ∃ j, j < 64 ∧ x = j * 2 + k / 64))) :=
  ⟨⟨Nat.le_of_eq (List.length_range 128).symm,
      Nat.le_trans (Nat.le_of_eq (List.length_range 128)) (by decide)⟩,
    transposes_index_in_range (List.replicate 128 0) (List.range 128) (List.range 128) 1
      (Nat.le_of_eq (List.length_range 128).symm)
      (Nat.le_trans (Nat.le_of_eq (List.length_range 128)) (by decide))⟩

/-- C25: at stride 1, `bs_transpose` and `bs_transpose_rev` are inverse to each other on
128-word blocks of 64-bit words: `bs_transpose_rev(bs_transpose(B, 1), 1) == B` and
`bs_transpose(bs_transpose_rev(B, 1), 1) == B`. -/
theorem bs_transpose_rev_mutually_inverse (B : List Nat) (hlen : B.length = 128)
    (hw : ∀ w ∈ B, w < 2 ^ 64) :
    bs_transpose_rev (bs_transpose B 1) 1 = B ∧ bs_transpose (bs_transpose_rev B 1) 1 = B := by
  have h128 : 128 ≤ B.length := Nat.le_of_eq hlen.symm
  constructor
  · apply list_ext_getD
    · rw [bs_transpose_rev_length _ _ (by rw [bs_transpose_length _ _ h128]; exact h128),
        bs_transpose_length _ _ h128]
    · intro n hn
      rw [bs_transpose_rev_length _ _ (by rw [bs_transpose_length _ _ h128]; exact h128),
        bs_transpose_length _ _ h128] at hn
      rw [bs_transpose_rev_transpose_getD B 1 n (by omega)]
      have h1 : (n / 2 * 2 * 1 + n % 2) % 2 ^ 64 = n := by omega
      rw [h1]
      exact getD_mod_of_lt B hw n hn
  · apply list_ext_getD
    · rw [bs_transpose_length _ _ (by rw [bs_transpose_rev_length _ _ h128]; exact h128),
        bs_transpose_rev_length _ _ h128]
    · intro n hn
      rw [bs_transpose_length _ _ (by rw [bs_transpose_rev_length _ _ h128]; exact h128),
        bs_transpose_rev_length _ _ h128] at hn
      rw [bs_transpose_transpose_rev_getD B 1 n (by omega)]
      exact getD_mod_of_lt B hw n hn

/-- Witness of `bs_transpose_rev_mutually_inverse` on the block whose word `n` is `n`. -/
theorem bs_transpose_rev_mutually_inverse_witness :
    ((List.range 128).length = 128 ∧ ∀ w ∈ List.range 128, w < 2 ^ 64) ∧
    (bs_transpose_rev (bs_transpose (List.range 128) 1) 1 = List.range 128 ∧
      bs_transpose (bs_transpose_rev (List.range 128) 1) 1 = List.range 128) :=
  ⟨⟨List.length_range 128, fun _ hw => Nat.lt_trans (List.mem_range.mp hw) (by decide)⟩,
    bs_transpose_rev_mutually_inverse (List.range 128) (List.length_range 128)
      (fun _ hw => Nat.lt_trans (List.mem_range.mp hw) (by decide))⟩

/-- C26: as built, the result of `bs_transpose_rev` does not depend on its stride argument,
and for `k < 128`, `j < 64` bit `k % 64` of result word `j * 2 + k / 64` is bit `j` of input
word `k`. -/
theorem bs_transpose_rev_ignores_stride (B : List Nat) (s s' k j : Nat) (hk : k < 128)
    (hj : j < 64) :
    bs_transpose_rev B s = bs_transpose_rev B s' ∧
    ((bs_transpose_rev B s).getD (j * 2 + k / 64) 0).testBit (k % 64) =
      (B.getD k 0).testBit j := by
  refine ⟨rfl, ?_⟩
  rw [Bool.eq_iff_iff, bs_transpose_rev_testBit _ _ _ _ (by omega)]
  have h1 : (j * 2 + k / 64) % 2 * 64 + k % 64 = k := by omega
  have h2 : (j * 2 + k / 64) / 2 = j := by omega
  rw [h1, h2]
  exact ⟨fun h => h.2, fun h => ⟨by omega, h⟩⟩

/-- Witness of `bs_transpose_rev_ignores_stride`: the block whose word `n` is `n`, strides 1
and 2, `k = 70`, `j = 3`. -/
theorem bs_transpose_rev_ignores_stride_witness :
    (70 < 128 ∧ 3 < 64) ∧
    (bs_transpose_rev (List.range 128) 1 = bs_transpose_rev (List.range 128) 2 ∧
    ((bs_transpose_rev (List.range 128) 1).getD (3 * 2 + 70 / 64) 0).testBit (70 % 64) =
      ((List.range 128).getD 70 0).testBit 3) :=
  ⟨⟨by decide, by decide⟩,
    bs_transpose_rev_ignores_stride (List.range 128) 1 2 70 3 (by decide) (by decide)⟩

/-- C27: on 256-byte buffers `un_byte_slice` and `byte_slice` are the same byte permutation,
`un_byte_slice(Y) == byte_slice(Y)`, and `byte_slice` is an involution,
`byte_slice(byte_slice(Y)) == Y`. -/
theorem un_byte_slice_eq_byte_slice (Y out out' : List Nat) (hY : Y.length = 256)
    (hout : out.length = 256) (hout' : out'.length = 256) :
    un_byte_slice Y out = byte_slice Y out' ∧ byte_slice (byte_slice Y out) out' = Y := by
  constructor
  · apply list_ext_getD
    · rw [un_byte_slice_length, byte_slice_length, hout, hout']
    · intro n hn
      rw [un_byte_slice_length, hout] at hn
      rw [un_byte_slice_getD _ _ n hn (by omega), byte_slice_getD _ _ n hn (by omega)]
  · apply list_ext_getD
    · rw [byte_slice_length, hout', hY]
    · intro n hn
      rw [byte_slice_length, hout'] at hn
      rw [byte_slice_getD _ _ n hn (by omega), byte_slice_getD _ _ _ (by omega) (by omega)]
      congr 1
      omega

/-- Witness of `un_byte_slice_eq_byte_slice` on the buffer whose byte `n` is `n`. -/
theorem un_byte_slice_eq_byte_slice_witness :
    ((List.range 256).length = 256 ∧ (List.replicate 256 0).length = 256 ∧
      (List.replicate 256 1).length = 256) ∧
    (un_byte_slice (List.range 256) (List.replicate 256 0) =
        byte_slice (List.range 256) (List.replicate 256 1) ∧
      byte_slice (byte_slice (List.range 256) (List.replicate 256 0))
        (List.replicate 256 1) = List.range 256) :=
  ⟨⟨List.length_range 256, List.length_replicate 256 0, List.length_replicate 256 1⟩,
    un_byte_slice_eq_byte_slice (List.range 256) (List.replicate 256 0)
      (List.replicate 256 1) (List.length_range 256) (List.length_replicate 256 0)
      (List.length_replicate 256 1)⟩

/-- C28: with the supplied tables `multiply_8b_using_log_table` is associative on bytes:
`multiply(multiply(a, b), c) == multiply(a, multiply(b, c))`. -/
theorem multiply_8b_using_log_table_assoc (a b c : Nat) (ha : a < 256) (hb : b < 256)
    (hc : c < 256) :
    multiply_8b_using_log_table (multiply_8b_using_log_table a b LOG_TABLE EXP_TABLE) c
        LOG_TABLE EXP_TABLE =
      multiply_8b_using_log_table a (multiply_8b_using_log_table b c LOG_TABLE EXP_TABLE)
        LOG_TABLE EXP_TABLE := by
  simp only [multiply_eq_mulPacked]
  exact mulPacked_assoc a b c ha hb hc

/-- Witness of `multiply_8b_using_log_table_assoc` at `a = 0x53`, `b = 0xCA`, `c = 0x0F`. -/
theorem multiply_8b_using_log_table_assoc_witness :
    (0x53 < 256 ∧ 0xCA < 256 ∧ 0x0F < 256) ∧
    multiply_8b_using_log_table (multiply_8b_using_log_table 0x53 0xCA LOG_TABLE EXP_TABLE)
        0x0F LOG_TABLE EXP_TABLE =
      multiply_8b_using_log_table 0x53
        (multiply_8b_using_log_table 0xCA 0x0F LOG_TABLE EXP_TABLE) LOG_TABLE EXP_TABLE :=
  ⟨⟨by decide, by decide, by decide⟩,
    multiply_8b_using_log_table_assoc 0x53 0xCA 0x0F (by decide) (by decide) (by decide)⟩

/-- C29: with the supplied tables there are no zero divisors: for bytes `a`, `b`,
`multiply_8b_using_log_table(a, b, LOG_TABLE, EXP_TABLE) == 0` iff `a == 0` or `b == 0`. -/
theorem multiply_8b_using_log_table_eq_zero_iff (a b : Nat) (ha : a < 256) (hb : b < 256) :
    multiply_8b_using_log_table a b LOG_TABLE EXP_TABLE = 0 ↔ a = 0 ∨ b = 0 := by
  rw [multiply_eq_mulPacked]
  exact mulPacked_eq_zero_iff a b ha hb

/-- Witness of `multiply_8b_using_log_table_eq_zero_iff` at `a = 0x80`, `b = 0x02`. -/
theorem multiply_8b_using_log_table_eq_zero_iff_witness :
    (0x80 < 256 ∧ 0x02 < 256) ∧
    (multiply_8b_using_log_table 0x80 0x02 LOG_TABLE EXP_TABLE = 0 ↔ 0x80 = 0 ∨ 0x02 = 0) :=
  ⟨⟨by decide, by decide⟩,
    multiply_8b_using_log_table_eq_zero_iff 0x80 0x02 (by decide) (by decide)⟩

/-- C30: for bytes `lhs`, `rhs` and 256-entry tables whose log entries are bytes, the index
at which `multiply_8b_using_log_table` reads `exp_table` is at most 255, so inside
`exp_table`; the two reads of `log_table` are inside `log_table`. -/
theorem multiply_8b_using_log_table_index_in_range (lhs rhs : Nat)
    (log_table exp_table : List Nat) (hl : lhs < 256) (hr : rhs < 256)
    (hlog : log_table.length = 256) (hexp : exp_table.length = 256)
    (hbytes : ∀ e ∈ log_table, e ≤ 255) :
    multiply_8b_using_log_table lhs rhs log_table exp_table =
      (if lhs ≠ 0 ∧ rhs ≠ 0
        then exp_table.getD (multiply_8b_using_log_table_index lhs rhs log_table) 0
        else 0) ∧
    multiply_8b_using_log_table_index lhs rhs log_table ≤ 255 ∧
    multiply_8b_using_log_table_index lhs rhs log_table < exp_table.length ∧
    lhs < log_table.length ∧ rhs < log_table.length := by
  have hget : ∀ x, log_table.getD x 0 ≤ 255 := by
    intro x
    rw [List.getD_eq_getElem?_getD]
    cases hx : log_table[x]? with
    | none => simp
    | some e => exact hbytes e (List.getElem?_mem hx)
  have h1 := hget lhs
  have h2 := hget rhs
  have hidx : multiply_8b_using_log_table_index lhs rhs log_table ≤ 255 := by
    unfold multiply_8b_using_log_table_index
    dsimp only
    split <;> omega
  refine ⟨rfl, hidx, by omega, by omega, by omega⟩

/-- Witness of `multiply_8b_using_log_table_index_in_range` on the supplied tables. -/
theorem multiply_8b_using_log_table_index_in_range_witness :
    (0xFE < 256 ∧ 0xFF < 256 ∧ LOG_TABLE.length = 256 ∧ EXP_TABLE.length = 256 ∧
      ∀ e ∈ LOG_TABLE, e ≤ 255) ∧
    (multiply_8b_using_log_table 0xFE 0xFF LOG_TABLE EXP_TABLE =
      (if 0xFE ≠ 0 ∧ 0xFF ≠ 0
        then EXP_TABLE.getD (multiply_8b_using_log_table_index 0xFE 0xFF LOG_TABLE) 0
        else 0) ∧
    multiply_8b_using_log_table_index 0xFE 0xFF LOG_TABLE ≤ 255 ∧
    multiply_8b_using_log_table_index 0xFE 0xFF LOG_TABLE < EXP_TABLE.length ∧
    0xFE < LOG_TABLE.length ∧ 0xFF < LOG_TABLE.length) :=
  ⟨⟨by decide, by decide, LOG_TABLE_length, EXP_TABLE_length, by decide!⟩,
    multiply_8b_using_log_table_index_in_range 0xFE 0xFF LOG_TABLE EXP_TABLE (by decide)
      (by decide) LOG_TABLE_length EXP_TABLE_length (by decide!)⟩

/-! ## Claim on the subfield of the sixteen low values -/

/-- The packed multiplier keeps the values `0..15` among themselves. -/
theorem mulPacked_lt_16 : ∀ a, a < 16 → ∀ b, b < 16 → mulPacked a b < 16 := by decide!

/-- The first sixteen entries of the alpha map are the index shifted left by four. -/
theorem alpha_map_low : ∀ r, r < 16 → BINARY_TOWER_8B_MUL_ALPHA_MAP.getD r 0 = r <<< 4 := by
  decide!

/-- C31: with the supplied tables the values `0..15` are closed under multiplication, for
all `a, b < 16`, `multiply_8b_using_log_table(a, b, LOG_TABLE, EXP_TABLE) < 16`; and for
every `r < 16`, `BINARY_TOWER_8B_MUL_ALPHA_MAP[r] == r << 4`. -/
theorem multiply_8b_using_log_table_low_closed (a b r : Nat) (ha : a < 16) (hb : b < 16)
    (hr : r < 16) :
    multiply_8b_using_log_table a b LOG_TABLE EXP_TABLE < 16 ∧
    BINARY_TOWER_8B_MUL_ALPHA_MAP.getD r 0 = r <<< 4 := by
  rw [multiply_eq_mulPacked]
  exact ⟨mulPacked_lt_16 a ha b hb, alpha_map_low r hr⟩

/-- Witness of `multiply_8b_using_log_table_low_closed` at `a = 0x0B`, `b = 0x0E`,
`r = 0x0F`. -/
theorem multiply_8b_using_log_table_low_closed_witness :
    (0x0B < 16 ∧ 0x0E < 16 ∧ 0x0F < 16) ∧
    (multiply_8b_using_log_table 0x0B 0x0E LOG_TABLE EXP_TABLE < 16 ∧
    BINARY_TOWER_8B_MUL_ALPHA_MAP.getD 0x0F 0 = 0x0F <<< 4) :=
  ⟨⟨by decide, by decide, by decide⟩,
    multiply_8b_using_log_table_low_closed 0x0B 0x0E 0x0F (by decide) (by decide)
      (by decide)⟩

end Bs
